import Mathlib

/-!
Verification of the pi_agent_rust extension runtime core.

This development embeds, in Lean 4, the parts of the repository that the
claims concern:

* the capability policy engine (five-layer precedence evaluation, profiles,
  prompt resolution) — the implementation lives in the `pi::extensions`
  crate module which is not part of the provided sources, so those
  definitions are modelled from the specification (section 4.1 / 4.4) and
  cross-checked against the repository's own test suites
  (`tests/capability_policy_model.rs`, `tests/capability_policy_scoped.rs`);
* the deterministic PiJS event loop (`src/extensions_js.rs`,
  `PiEventLoop`), with the two binary heaps abstracted as lists kept
  sorted by the corresponding heap key;
* the pending-hostcall promise bridge (`src/extensions_js.rs`,
  `PendingHostcalls`) with JS resolver functions abstracted as opaque
  tokens and resolver invocations recorded as settlement events;
* the JSON → JS value conversion (`src/extensions_js.rs`, `json_to_js`).
-/

/- ═══════════════════ String helpers ═══════════════════ -/

/-- Remove leading and trailing whitespace from a character list. -/
def trimChars (l : List Char) : List Char :=
  ((l.dropWhile Char.isWhitespace).reverse.dropWhile Char.isWhitespace).reverse

/-- Normalize a capability / method / tool-name token: trim surrounding
whitespace and lowercase (Rust `s.trim().to_lowercase()`), mirroring the
case-insensitive, trimmed comparisons documented in spec 4.1 and
exercised by the tests.  Implemented over the underlying character list
so that it evaluates by kernel reduction. -/
def normTok (s : String) : String :=
  String.mk ((trimChars s.data).map Char.toLower)

/-- Does `sub` occur as a contiguous sublist of `l`? -/
def subOccurs (sub : List Char) : List Char → Bool
  | [] => sub.isPrefixOf []
  | c :: rest => sub.isPrefixOf (c :: rest) || subOccurs sub rest

/-- Substring test: `containsSub s sub` is true iff `sub` occurs in `s`. -/
def containsSub (s sub : String) : Bool :=
  subOccurs sub.data s.data

/- ═══════════════════ Policy engine data model ═══════════════════ -/

/-- Policy decision returned by evaluation (spec 4.1). -/
inductive PolicyDecision
  | allow
  | deny
  | prompt
deriving DecidableEq, Repr

/-- Policy mode (spec 3, `mode ∈ {strict, prompt, permissive}`). -/
inductive ExtensionPolicyMode
  | strict
  | prompt
  | permissive
deriving DecidableEq, Repr

/-- Per-extension policy override (spec 3): optional mode plus explicit
allow / deny capability lists. -/
structure ExtensionOverride where
  mode : Option ExtensionPolicyMode := none
  allow : List String := []
  deny : List String := []
deriving DecidableEq, Repr

/-- Global policy configuration (spec 3, `PolicyConfig`): mode, default
capabilities, denied capabilities, and per-extension overrides (an
association map from extension id to override). -/
structure ExtensionPolicy where
  mode : ExtensionPolicyMode
  default_caps : List String
  deny_caps : List String
  per_extension : List (String × ExtensionOverride)
deriving DecidableEq, Repr

/-- Result of a policy evaluation: decision, stable reason string, and the
normalized capability that was evaluated. -/
structure PolicyCheck where
  decision : PolicyDecision
  reason : String
  capability : String
deriving DecidableEq, Repr

/-- Capability-list membership used by evaluation: the stored entries and
the query are both normalized (trimmed, lowercased). -/
def capMem (cap : String) (l : List String) : Bool :=
  l.any (fun x => normTok x == cap)

/-- Modelled from the spec: `ExtensionPolicy::evaluate_for` of the
`pi::extensions` module, whose implementation is not among the provided
sources (only its tests are).  Spec 4.1: empty or whitespace-only
capability is denied with reason `empty_capability`; otherwise the five
layers apply, first match wins: extension deny, global `deny_caps`,
extension allow, `default_caps`, then the effective mode (the override's
mode when set, else the global mode).  Unknown extension ids fall through
to the global rules.  All comparisons are case-insensitive and trimmed. -/
def ExtensionPolicy.evaluate_for (p : ExtensionPolicy) (cap : String)
    (ext : Option String) : PolicyCheck :=
  let c := normTok cap
  if c.isEmpty then ⟨.deny, "empty_capability", c⟩
  else
    let ovr := ext.bind (fun e => p.per_extension.lookup e)
    if (ovr.map (fun o => capMem c o.deny)).getD false then
      ⟨.deny, "extension_deny", c⟩
    else if capMem c p.deny_caps then
      ⟨.deny, "deny_caps", c⟩
    else if (ovr.map (fun o => capMem c o.allow)).getD false then
      ⟨.allow, "extension_allow", c⟩
    else if capMem c p.default_caps then
      ⟨.allow, "default_caps", c⟩
    else
      match (ovr.bind (fun o => o.mode)).getD p.mode with
      | .strict => ⟨.deny, "not_in_default_caps", c⟩
      | .prompt => ⟨.prompt, "prompt_required", c⟩
      | .permissive => ⟨.allow, "permissive", c⟩

/-- `evaluate` is `evaluate_for` without an extension id
(test `evaluate_for_none_extension_same_as_evaluate`). -/
def ExtensionPolicy.evaluate (p : ExtensionPolicy) (cap : String) : PolicyCheck :=
  p.evaluate_for cap none

/-- Policy profile presets (spec 3). -/
inductive PolicyProfile
  | safe
  | standard
  | permissive
deriving DecidableEq, Repr

/-- The default capability set shared by the profiles.  Forced by the
repository's tests: `all_profiles_allow_default_safe_caps` requires every
profile (including *safe*) to allow read, write, http, events and
session, and `safe_profile_denies_unknown_caps` requires ui, log, tool to
be absent from the safe profile's `default_caps`. -/
def standardDefaultCaps : List String :=
  ["read", "write", "http", "events", "session"]

/-- Modelled from the spec: `PolicyProfile::to_policy` of `pi::extensions`,
whose implementation is not among the provided sources.  Modes follow
spec 4.1 (safe → strict, standard → prompt, permissive → permissive, and
permissive has empty `deny_caps`); the exact capability sets — which the
spec marks as "a policy detail" — are taken as forced by the repository's
tests: `all_profiles_allow_default_safe_caps` (every profile allows
read/write/http/events/session), `profile_safe_is_strict_with_safe_defaults`
and `safe_profile_denies_all_dangerous_caps` (safe denies exec and env),
`profile_standard_matches_default` together with
`precedence_layer2_global_deny_beats_extension_allow` (standard's
`deny_caps` is exactly the dangerous pair exec/env). -/
def PolicyProfile.to_policy : PolicyProfile → ExtensionPolicy
  | .safe => ⟨.strict, standardDefaultCaps, ["exec", "env"], []⟩
  | .standard => ⟨.prompt, standardDefaultCaps, ["exec", "env"], []⟩
  | .permissive => ⟨.permissive, standardDefaultCaps, [], []⟩

/-- The five-layer cascade exactly as claim C1 words it: no
empty-capability guard, straight into the layers. -/
def claimedFiveLayer (p : ExtensionPolicy) (cap : String)
    (ext : Option String) : PolicyCheck :=
  let c := normTok cap
  let ovr := ext.bind (fun e => p.per_extension.lookup e)
  if (ovr.map (fun o => capMem c o.deny)).getD false then
    ⟨.deny, "extension_deny", c⟩
  else if capMem c p.deny_caps then
    ⟨.deny, "deny_caps", c⟩
  else if (ovr.map (fun o => capMem c o.allow)).getD false then
    ⟨.allow, "extension_allow", c⟩
  else if capMem c p.default_caps then
    ⟨.allow, "default_caps", c⟩
  else
    match (ovr.bind (fun o => o.mode)).getD p.mode with
    | .strict => ⟨.deny, "not_in_default_caps", c⟩
    | .prompt => ⟨.prompt, "prompt_required", c⟩
    | .permissive => ⟨.allow, "permissive", c⟩

/-- Helper: whenever the queried capability is (after normalization) in the
global `deny_caps` list, the five-layer cascade yields a denial, no matter
what the extension override says. -/
theorem claimedFiveLayer_deny_of_deny_caps (p : ExtensionPolicy) (cap : String)
    (ext : Option String) (hd : capMem (normTok cap) p.deny_caps = true) :
    (claimedFiveLayer p cap ext).decision = PolicyDecision.deny := by
  unfold claimedFiveLayer
  by_cases h : (ext.bind fun a =>
      Option.map (fun o => capMem (normTok cap) o.deny)
        (List.lookup a p.per_extension)).getD false = true
  · simp [h]
  · simp [h, hd]

/-- C1 (amended): for every capability string whose trimmed form is
nonempty, every extension id and every policy, evaluation follows the
five-layer first-match cascade stated in the claim (`claimedFiveLayer`),
and — with no nonemptiness restriction needed — any capability in
`deny_caps` is denied regardless of the extension override allow list. -/
theorem evaluate_for_five_layer_order (p : ExtensionPolicy) (cap : String)
    (ext : Option String) (hne : (normTok cap).isEmpty = false) :
    p.evaluate_for cap ext = claimedFiveLayer p cap ext
    ∧ (capMem (normTok cap) p.deny_caps = true →
        (p.evaluate_for cap ext).decision = PolicyDecision.deny) := by
  have heq : p.evaluate_for cap ext = claimedFiveLayer p cap ext := by
    unfold ExtensionPolicy.evaluate_for claimedFiveLayer
    rw [if_neg]
    simp [hne]
  exact ⟨heq, fun hd => heq ▸ claimedFiveLayer_deny_of_deny_caps p cap ext hd⟩

/-- C1 witness: the `scoped_allow_cannot_bypass_global_deny_caps` scenario —
standard profile, an extension whose override allow list contains `exec`,
evaluated for `exec`: still denied with reason `deny_caps`. -/
theorem evaluate_for_five_layer_order_witness :
    ((normTok "exec").isEmpty = false)
    ∧ (({ PolicyProfile.standard.to_policy with
          per_extension := [("sneaky-ext", ⟨none, ["exec", "env"], []⟩)] }
            : ExtensionPolicy).evaluate_for "exec" (some "sneaky-ext")
        = claimedFiveLayer
            { PolicyProfile.standard.to_policy with
              per_extension := [("sneaky-ext", ⟨none, ["exec", "env"], []⟩)] }
            "exec" (some "sneaky-ext")
       ∧ (capMem (normTok "exec")
            ({ PolicyProfile.standard.to_policy with
               per_extension := [("sneaky-ext", ⟨none, ["exec", "env"], []⟩)] }
              : ExtensionPolicy).deny_caps = true →
          (({ PolicyProfile.standard.to_policy with
              per_extension := [("sneaky-ext", ⟨none, ["exec", "env"], []⟩)] }
              : ExtensionPolicy).evaluate_for "exec" (some "sneaky-ext")).decision
            = PolicyDecision.deny)) :=
  ⟨by decide,
   evaluate_for_five_layer_order
     { PolicyProfile.standard.to_policy with
       per_extension := [("sneaky-ext", ⟨none, ["exec", "env"], []⟩)] }
     "exec" (some "sneaky-ext") (by decide)⟩

/-- C1 counterexample: on the empty capability string the claimed
unguarded five-layer cascade disagrees with evaluation.  Under the
standard policy the cascade (layer 5, prompt mode) would yield
`Prompt/"prompt_required"`, but evaluation returns
`Deny/"empty_capability"` — exactly what the repository test
`evaluate_empty_capability_denied` asserts. -/
theorem evaluate_for_empty_cap_deviates :
    PolicyProfile.standard.to_policy.evaluate_for "" none
        = ⟨PolicyDecision.deny, "empty_capability", ""⟩
    ∧ claimedFiveLayer PolicyProfile.standard.to_policy "" none
        = ⟨PolicyDecision.prompt, "prompt_required", ""⟩
    ∧ PolicyProfile.standard.to_policy.evaluate_for "" none
        ≠ claimedFiveLayer PolicyProfile.standard.to_policy "" none := by
  decide

/-- C2 counterexample: under the safe profile (as pinned down by the
repository's own tests, notably `all_profiles_allow_default_safe_caps`),
evaluating `write` and `http` with no extension override yields Allow,
not the Deny the claim asserts, and safe's `deny_caps` is not the claimed
seven-element list. -/
theorem safe_profile_allows_write_http :
    (PolicyProfile.safe.to_policy.evaluate "write").decision = PolicyDecision.allow
    ∧ (PolicyProfile.safe.to_policy.evaluate "http").decision = PolicyDecision.allow
    ∧ PolicyProfile.safe.to_policy.deny_caps
        ≠ ["exec", "env", "http", "write", "ui", "log", "tool"]
    ∧ PolicyDecision.allow ≠ PolicyDecision.deny := by
  decide

/-- C2 (amended): the safe profile yields `mode = strict`,
`default_caps = {read, write, http, events, session}` and
`deny_caps = {exec, env}`; consequently, with no extension override,
`write` and `http` are allowed (via `default_caps`), the dangerous
capabilities `exec` and `env` are denied (via `deny_caps`), and the
capabilities outside `default_caps` (`ui`, `log`, `tool`) are denied by
strict mode. -/
theorem safe_profile_shape :
    PolicyProfile.safe.to_policy.mode = ExtensionPolicyMode.strict
    ∧ PolicyProfile.safe.to_policy.default_caps
        = ["read", "write", "http", "events", "session"]
    ∧ PolicyProfile.safe.to_policy.deny_caps = ["exec", "env"]
    ∧ (PolicyProfile.safe.to_policy.evaluate "write").decision = PolicyDecision.allow
    ∧ (PolicyProfile.safe.to_policy.evaluate "http").decision = PolicyDecision.allow
    ∧ PolicyProfile.safe.to_policy.evaluate "exec"
        = ⟨PolicyDecision.deny, "deny_caps", "exec"⟩
    ∧ PolicyProfile.safe.to_policy.evaluate "env"
        = ⟨PolicyDecision.deny, "deny_caps", "env"⟩
    ∧ PolicyProfile.safe.to_policy.evaluate "ui"
        = ⟨PolicyDecision.deny, "not_in_default_caps", "ui"⟩
    ∧ PolicyProfile.safe.to_policy.evaluate "log"
        = ⟨PolicyDecision.deny, "not_in_default_caps", "log"⟩
    ∧ PolicyProfile.safe.to_policy.evaluate "tool"
        = ⟨PolicyDecision.deny, "not_in_default_caps", "tool"⟩ := by
  decide

/- ═══════════════════ Host-call payloads and capability mapping ═══════════════════ -/

/-- Neutral JSON representation (`serde_json::Value`).  Numbers are
modelled by their integer value: the claims under verification only
involve integers in the `i64` range, where `serde_json::Number::as_i64`
succeeds; the lossy `f64` fallback for out-of-range numbers is kept
abstract (see `json_to_js`). -/
inductive Json
  | null
  | bool (b : Bool)
  | num (n : Int)
  | str (s : String)
  | arr (elems : List Json)
  | obj (fields : List (String × Json))

/-- Look up a key of a JSON object (objects keep unique keys). -/
def Json.getField : Json → String → Option Json
  | .obj fields, k => fields.lookup k
  | _, _ => none

/-- Extract a JSON string. -/
def Json.getStr : Json → Option String
  | .str s => some s
  | _ => none

/-- Is this JSON value an object? -/
def Json.isObj : Json → Bool
  | .obj _ => true
  | _ => false

/-- Host-call request payload (spec 3 / 6, `HostCallRequest`): correlation
id, declared capability, method selector, structured params, and the
optional timeout / cancel-token / context fields. -/
structure HostCallPayload where
  call_id : String
  capability : String
  method : String
  params : Json
  timeout_ms : Option Nat := none
  cancel_token : Option String := none
  context : Option Json := none

/-- Is `s` empty after trimming whitespace? -/
def blankStr (s : String) : Bool := (trimChars s.data).isEmpty

/-- Tool-name → capability mapping for `method = tool` (spec 4.4 table,
test module `tool_capability_mapping`): read/grep/find/ls need `read`,
write/edit need `write`, bash needs `exec`, any other nonempty name needs
`tool`, and an empty name is unmapped. -/
def toolNameCap (name : String) : Option String :=
  let n := normTok name
  if n.isEmpty then none
  else if n == "read" || n == "grep" || n == "find" || n == "ls" then some "read"
  else if n == "write" || n == "edit" then some "write"
  else if n == "bash" then some "exec"
  else some "tool"

/-- Fs-op → capability mapping for `method = fs` (spec 4.4 table, test
module `fs_op_mapping`). -/
def fsOpCap (op : String) : Option String :=
  let o := normTok op
  if o == "read" || o == "list" || o == "readdir" || o == "stat" then some "read"
  else if o == "write" || o == "mkdir" || o == "delete" || o == "remove" || o == "rm" then
    some "write"
  else none

/-- Modelled from the spec: `required_capability_for_host_call` of
`pi::extensions`, whose implementation is not among the provided sources
(only its tests in `tests/capability_policy_scoped.rs` are).  Maps
(method, params) to the required capability per the spec 4.4 table; an
unmapped combination yields `none` and dispatch then evaluates the
declared capability of the request. -/
def required_capability_for_host_call (call : HostCallPayload) : Option String :=
  let m := normTok call.method
  if m == "tool" then
    match (call.params.getField "name").bind Json.getStr with
    | some name => toolNameCap name
    | none => none
  else if m == "fs" then
    match (call.params.getField "op").bind Json.getStr with
    | some op => fsOpCap op
    | none => none
  else if m == "exec" || m == "env" || m == "http" || m == "session"
      || m == "ui" || m == "events" || m == "log" then
    some m
  else none

/- ═══════════════════ Host-call dispatch ═══════════════════ -/

/-- Closed outcome error codes (spec 4.4 / 7). -/
inductive HostCallErrorCode
  | invalid_request
  | denied
  | not_found
  | timeout
  | cancelled
  | internal
  | unsupported
deriving DecidableEq, Repr

/-- A host-call error outcome. -/
structure HostCallError where
  code : HostCallErrorCode
  message : String
deriving DecidableEq, Repr

/-- Dispatch result as far as the authorization pipeline is concerned:
an error outcome, an authorized call (forwarded to the backing
subsystem), or a capability prompt handed to the interactive UI. -/
inductive DispatchOutcome
  | err (e : HostCallError)
  | authorized (capability : String)
  | awaitUser (extension_id : String) (capability : String)
deriving DecidableEq, Repr

/-- Is the outcome a `denied` error? -/
def DispatchOutcome.deniedQ : DispatchOutcome → Bool
  | .err e => e.code == HostCallErrorCode.denied
  | _ => false

/-- Message of an error outcome (empty otherwise). -/
def DispatchOutcome.errMessage : DispatchOutcome → String
  | .err e => e.message
  | _ => ""

/-- Did dispatch have to ask the user? -/
def DispatchOutcome.asksUser : DispatchOutcome → Bool
  | .awaitUser _ _ => true
  | _ => false

/-- The per-process prompt cache keyed by `(extension_id, capability)`
(spec 4.1, `ExtensionManager::cached_policy_prompt_decision`). -/
structure PromptCache where
  entries : List ((String × String) × Bool)
deriving DecidableEq, Repr

/-- Cache lookup for an `(extension id, capability)` pair. -/
def PromptCache.lookup (c : PromptCache) (ext cap : String) : Option Bool :=
  c.entries.lookup (ext, cap)

/-- Dispatch context (spec 4.4 `Context`): the calling extension, the
policy, the optional extension manager holding the prompt cache (`none`
models dispatch without a manager), and whether an interactive UI sender
is available. -/
structure DispatchContext where
  extension_id : Option String
  policy : ExtensionPolicy
  promptCache : Option PromptCache
  uiAvailable : Bool

/-- The message attached to a policy denial: it names the capability and
the stable policy reason (test `dispatch_denied_cap_with_extension_id`
checks both occur in the message). -/
def deniedMsg (cap reason : String) : String :=
  "capability " ++ cap ++ " denied by policy: " ++ reason

/-- Modelled from the spec: prompt resolution (spec 4.1).  A cache hit
returns the cached boolean directly (true → allow, false → deny); a cache
miss with an interactive UI produces a user request; without a manager or
without an interactive UI the prompt falls back to deny. -/
def resolve_policy_prompt (ctx : DispatchContext) (cap : String) : DispatchOutcome :=
  match ctx.promptCache, ctx.extension_id with
  | some cache, some e =>
    match cache.lookup e cap with
    | some true => .authorized cap
    | some false => .err ⟨.denied, deniedMsg cap "prompt_denied"⟩
    | none =>
      if ctx.uiAvailable then .awaitUser e cap
      else .err ⟨.denied, deniedMsg cap "prompt_required"⟩
  | _, _ => .err ⟨.denied, deniedMsg cap "prompt_required"⟩

/-- Validation step of dispatch (spec 4.4 pipeline step 1): `call_id`,
`capability` and `method` must be nonempty after trimming and `params`
must be an object. -/
def validOk (call : HostCallPayload) : Bool :=
  !blankStr call.call_id && !blankStr call.capability
    && !blankStr call.method && call.params.isObj

/-- The capability dispatch evaluates: the mapped required capability, or
the declared capability of the request when the mapping is unresolved
(spec 4.4 pipeline step 2). -/
def requiredOrDeclared (call : HostCallPayload) : String :=
  (required_capability_for_host_call call).getD (normTok call.capability)

/-- Modelled from the spec: the validate → map → authorize pipeline of
`dispatch_host_call_shared` (spec 4.4), whose implementation is not among
the provided sources (only its tests are).  The execute step is out of
scope: an authorized call is represented by `DispatchOutcome.authorized`. -/
def dispatch_host_call (ctx : DispatchContext) (call : HostCallPayload) : DispatchOutcome :=
  if !validOk call then .err ⟨.invalid_request, "invalid host call"⟩
  else
    match (ctx.policy.evaluate_for (requiredOrDeclared call) ctx.extension_id).decision with
    | .allow => .authorized (requiredOrDeclared call)
    | .deny =>
      .err ⟨.denied, deniedMsg (requiredOrDeclared call)
        (ctx.policy.evaluate_for (requiredOrDeclared call) ctx.extension_id).reason⟩
    | .prompt => resolve_policy_prompt ctx (requiredOrDeclared call)

/-- A string that is not `""` has `isEmpty = false`. -/
theorem isEmpty_false_of_ne_empty (s : String) (h : s ≠ "") : s.isEmpty = false := by
  cases hh : s.isEmpty
  · rfl
  · exact absurd ((String.isEmpty_iff s).mp hh) h

/-- For a `tool` host call carrying a tool name, the required capability is
exactly the tool-name mapping. -/
theorem required_cap_tool (call : HostCallPayload) (name : String)
    (hm : normTok call.method = "tool")
    (hn : (call.params.getField "name").bind Json.getStr = some name) :
    required_capability_for_host_call call = toolNameCap name := by
  simp only [required_capability_for_host_call, hm, hn]
  rfl

/-- The `dispatch_denied_cap_with_extension_id` style context: standard
profile, an extension id, no manager, no interactive UI. -/
def standardNoManagerCtx : DispatchContext :=
  ⟨some "my-extension", PolicyProfile.standard.to_policy, none, false⟩

/-- The spec scenario call: `method=tool, params={name:"bash", input:{command:"ls"}}`. -/
def bashToolCall : HostCallPayload where
  call_id := "call-1"
  capability := "tool"
  method := "tool"
  params := .obj [("name", .str "bash"), ("input", .obj [("command", .str "ls")])]

/-- C7: for every host call with method `tool` carrying a tool name, the
required capability follows the name mapping (read/grep/find/ls → read,
write/edit → write, bash → exec, any other nonempty name → tool), and —
concretely — dispatching `method=tool, params={name:"bash",
input:{command:"ls"}}` under the standard profile is denied with a
message containing `deny_caps`. -/
theorem tool_name_capability_mapping (call : HostCallPayload) (name : String)
    (hm : normTok call.method = "tool")
    (hn : (call.params.getField "name").bind Json.getStr = some name) :
    (normTok name ∈ (["read", "grep", "find", "ls"] : List String) →
        required_capability_for_host_call call = some "read")
    ∧ (normTok name ∈ (["write", "edit"] : List String) →
        required_capability_for_host_call call = some "write")
    ∧ (normTok name = "bash" →
        required_capability_for_host_call call = some "exec")
    ∧ (normTok name ∉
          (["read", "grep", "find", "ls", "write", "edit", "bash"] : List String) →
        normTok name ≠ "" →
        required_capability_for_host_call call = some "tool")
    ∧ (dispatch_host_call standardNoManagerCtx bashToolCall).deniedQ = true
    ∧ containsSub (dispatch_host_call standardNoManagerCtx bashToolCall).errMessage
        "deny_caps" = true := by
  have hreq := required_cap_tool call name hm hn
  refine ⟨?_, ?_, ?_, ?_, by decide, by decide⟩
  · intro h
    rw [hreq]
    simp only [List.mem_cons, List.not_mem_nil, or_false] at h
    rcases h with h | h | h | h <;> simp [toolNameCap, h] <;> decide
  · intro h
    rw [hreq]
    simp only [List.mem_cons, List.not_mem_nil, or_false] at h
    rcases h with h | h <;> simp [toolNameCap, h] <;> decide
  · intro h
    rw [hreq]
    simp [toolNameCap, h]
    decide
  · intro h hne
    rw [hreq]
    simp only [List.mem_cons, List.not_mem_nil, or_false, not_or] at h
    obtain ⟨h1, h2, h3, h4, h5, h6, h7⟩ := h
    simp [toolNameCap, isEmpty_false_of_ne_empty _ hne, h1, h2, h3, h4, h5, h6, h7]

/-- C7 witness: the bash tool call itself — its method is `tool`, its tool
name is `bash`, and the mapping yields `exec`. -/
theorem tool_name_capability_mapping_witness :
    (normTok bashToolCall.method = "tool"
      ∧ (bashToolCall.params.getField "name").bind Json.getStr = some "bash")
    ∧ ((normTok "bash" ∈ (["read", "grep", "find", "ls"] : List String) →
          required_capability_for_host_call bashToolCall = some "read")
      ∧ (normTok "bash" ∈ (["write", "edit"] : List String) →
          required_capability_for_host_call bashToolCall = some "write")
      ∧ (normTok "bash" = "bash" →
          required_capability_for_host_call bashToolCall = some "exec")
      ∧ (normTok "bash" ∉
            (["read", "grep", "find", "ls", "write", "edit", "bash"] : List String) →
          normTok "bash" ≠ "" →
          required_capability_for_host_call bashToolCall = some "tool")
      ∧ (dispatch_host_call standardNoManagerCtx bashToolCall).deniedQ = true
      ∧ containsSub (dispatch_host_call standardNoManagerCtx bashToolCall).errMessage
          "deny_caps" = true) :=
  ⟨⟨by decide, by decide⟩,
   tool_name_capability_mapping bashToolCall "bash" (by decide) (by decide)⟩

/-- C8: for every dispatched host call whose policy evaluation yields
Prompt for the evaluated capability and extension id: a prompt-cache hit
resolves the call directly — `true` authorizes it, `false` denies it —
without asking the user; and with no cache entry (including when no
manager is attached) and no interactive UI sender the call is denied. -/
theorem prompt_cache_dispatch (ctx : DispatchContext) (call : HostCallPayload)
    (e : String)
    (hval : validOk call = true)
    (hext : ctx.extension_id = some e)
    (hprompt : (ctx.policy.evaluate_for (requiredOrDeclared call)
        ctx.extension_id).decision = PolicyDecision.prompt) :
    (∀ cache, ctx.promptCache = some cache →
        (cache.lookup e (requiredOrDeclared call) = some true →
            dispatch_host_call ctx call
              = DispatchOutcome.authorized (requiredOrDeclared call)
            ∧ (dispatch_host_call ctx call).asksUser = false)
      ∧ (cache.lookup e (requiredOrDeclared call) = some false →
            (dispatch_host_call ctx call).deniedQ = true
            ∧ (dispatch_host_call ctx call).asksUser = false))
    ∧ ((ctx.promptCache.bind fun c => c.lookup e (requiredOrDeclared call)) = none →
        ctx.uiAvailable = false →
        (dispatch_host_call ctx call).deniedQ = true) := by
  have hdisp : dispatch_host_call ctx call
      = resolve_policy_prompt ctx (requiredOrDeclared call) := by
    unfold dispatch_host_call
    rw [hval, hprompt]
    rfl
  constructor
  · intro cache hc
    constructor
    · intro hl
      rw [hdisp]
      unfold resolve_policy_prompt
      rw [hc, hext]
      dsimp only
      rw [hl]
      exact ⟨rfl, rfl⟩
    · intro hl
      rw [hdisp]
      unfold resolve_policy_prompt
      rw [hc, hext]
      dsimp only
      rw [hl]
      exact ⟨rfl, rfl⟩
  · intro hnone hui
    rw [hdisp]
    unfold resolve_policy_prompt
    cases hc : ctx.promptCache with
    | none =>
      rw [hext]
      rfl
    | some cache =>
      rw [hc] at hnone
      have hl : cache.lookup e (requiredOrDeclared call) = none := by
        simpa using hnone
      rw [hext]
      dsimp only
      rw [hl, hui]
      rfl

/-- The prompt-mode policy of the `dispatch_prompt_with_cached_allow_succeeds`
test: prompt mode, `default_caps = [read]`, no `deny_caps`. -/
def promptOnlyPolicy : ExtensionPolicy := ⟨.prompt, ["read"], [], []⟩

/-- Context with a prompt cache pre-seeded with `(test-ext, exec) → true`
and no interactive UI. -/
def cachedAllowCtx : DispatchContext :=
  ⟨some "test-ext", promptOnlyPolicy, some ⟨[(("test-ext", "exec"), true)]⟩, false⟩

/-- An `exec` host call as in the scoped-dispatch tests. -/
def execCall : HostCallPayload where
  call_id := "cached-allow"
  capability := "exec"
  method := "exec"
  params := .obj [("cmd", .str "ls")]

/-- C8 witness: the `dispatch_prompt_with_cached_allow_succeeds` scenario —
prompt-mode policy, cache seeded with `(test-ext, exec) → true`, an exec
call: evaluation prompts, and the cached decision resolves it. -/
theorem prompt_cache_dispatch_witness :
    (validOk execCall = true
      ∧ cachedAllowCtx.extension_id = some "test-ext"
      ∧ (cachedAllowCtx.policy.evaluate_for (requiredOrDeclared execCall)
          cachedAllowCtx.extension_id).decision = PolicyDecision.prompt)
    ∧ ((∀ cache, cachedAllowCtx.promptCache = some cache →
          (cache.lookup "test-ext" (requiredOrDeclared execCall) = some true →
              dispatch_host_call cachedAllowCtx execCall
                = DispatchOutcome.authorized (requiredOrDeclared execCall)
              ∧ (dispatch_host_call cachedAllowCtx execCall).asksUser = false)
        ∧ (cache.lookup "test-ext" (requiredOrDeclared execCall) = some false →
              (dispatch_host_call cachedAllowCtx execCall).deniedQ = true
              ∧ (dispatch_host_call cachedAllowCtx execCall).asksUser = false))
      ∧ ((cachedAllowCtx.promptCache.bind
            fun c => c.lookup "test-ext" (requiredOrDeclared execCall)) = none →
          cachedAllowCtx.uiAvailable = false →
          (dispatch_host_call cachedAllowCtx execCall).deniedQ = true)) :=
  ⟨⟨by decide, by decide, by decide⟩,
   prompt_cache_dispatch cachedAllowCtx execCall "test-ext"
     (by decide) (by decide) (by decide)⟩

/- ═══════════════════ Deterministic PiJS event loop (src/extensions_js.rs) ═══════════════════ -/

/-- `u64::MAX`. -/
def U64MAX : Nat := 2 ^ 64 - 1

/-- `u64` saturating increment (`saturating_add(1)` in `next_seq` /
`PendingHostcalls::next_call_id`). -/
def satSucc (n : Nat) : Nat := min (n + 1) U64MAX

/-- `u64` saturating addition (`now_ms().saturating_add(delay_ms)`). -/
def satAdd (a b : Nat) : Nat := min (a + b) U64MAX

/-- `MacrotaskKind` of `src/extensions_js.rs`. -/
inductive MacrotaskKind
  | timerFired (timer_id : Nat)
  | hostcallComplete (call_id : String)
  | inboundEvent (event_id : String)
deriving DecidableEq, Repr

/-- `Macrotask` (and the structurally identical private `MacrotaskEntry`)
of `src/extensions_js.rs`: sequence number, trace id, kind. -/
structure Macrotask where
  seq : Nat
  trace_id : Nat
  kind : MacrotaskKind
deriving DecidableEq, Repr

/-- `TimerEntry` of `src/extensions_js.rs`. -/
structure TimerEntry where
  deadline_ms : Nat
  order_seq : Nat
  timer_id : Nat
  trace_id : Nat
deriving DecidableEq, Repr

/-- The strict order of `impl Ord for TimerEntry`: lexicographic on
`(deadline_ms, order_seq, timer_id)` (`trace_id` is not part of the key). -/
def TimerEntry.before (a b : TimerEntry) : Prop :=
  a.deadline_ms < b.deadline_ms
  ∨ (a.deadline_ms = b.deadline_ms
      ∧ (a.order_seq < b.order_seq
          ∨ (a.order_seq = b.order_seq ∧ a.timer_id < b.timer_id)))

instance (a b : TimerEntry) : Decidable (a.before b) := by
  unfold TimerEntry.before
  exact inferInstance

/-- `PendingMacrotask` of `src/extensions_js.rs`. -/
structure PendingMacrotask where
  trace_id : Nat
  kind : MacrotaskKind
deriving DecidableEq, Repr

/-- Is this macrotask kind a fired timer? -/
def MacrotaskKind.isTimer : MacrotaskKind → Bool
  | .timerFired _ => true
  | _ => false

/-- `TickResult` of `src/extensions_js.rs`. -/
structure TickResult where
  ran_macrotask : Bool
  microtasks_drained : Nat
deriving DecidableEq, Repr

/-- The state of `PiEventLoop` (`src/extensions_js.rs`).  The two
`BinaryHeap<Reverse<_>>` min-heaps are abstracted as lists kept sorted by
the heap key (head = minimum); the injected clock is the `ManualClock`
used by every test, represented by its current reading `now_ms`. -/
structure PiEventLoop where
  now_ms : Nat
  seq : Nat
  next_timer_id : Nat
  pending : List PendingMacrotask
  macro_queue : List Macrotask
  timers : List TimerEntry
  cancelled_timers : Finset Nat

/-- `PiEventLoop::new` over a manual clock started at `start_ms`. -/
def PiEventLoop.new (start_ms : Nat) : PiEventLoop :=
  ⟨start_ms, 0, 1, [], [], [], ∅⟩

/-- `ManualClock::set`. -/
def PiEventLoop.setClock (s : PiEventLoop) (ms : Nat) : PiEventLoop :=
  { s with now_ms := ms }

/-- Insert into the sorted-list abstraction of the macrotask min-heap
(key: `seq`): the entry is placed before the first entry with a strictly
greater key.  Reachable states carry pairwise distinct `seq`s, where this
is exactly the heap's pop order. -/
def insertMacro (m : Macrotask) : List Macrotask → List Macrotask
  | [] => [m]
  | x :: xs => if m.seq < x.seq then m :: x :: xs else x :: insertMacro m xs

/-- Insert into the sorted-list abstraction of the timer min-heap
(key: `TimerEntry.before`). -/
def insertTimer (e : TimerEntry) : List TimerEntry → List TimerEntry
  | [] => [e]
  | x :: xs => if e.before x then e :: x :: xs else x :: insertTimer e xs

/-- `PiEventLoop::enqueue_hostcall_completion`: draw a trace id from the
sequence counter and push the completion onto the pending buffer. -/
def PiEventLoop.enqueue_hostcall_completion (s : PiEventLoop) (call_id : String) :
    PiEventLoop :=
  { s with
    seq := satSucc s.seq,
    pending := s.pending ++ [⟨s.seq, .hostcallComplete call_id⟩] }

/-- `PiEventLoop::enqueue_inbound_event`. -/
def PiEventLoop.enqueue_inbound_event (s : PiEventLoop) (event_id : String) :
    PiEventLoop :=
  { s with
    seq := satSucc s.seq,
    pending := s.pending ++ [⟨s.seq, .inboundEvent event_id⟩] }

/-- `PiEventLoop::set_timeout`: allocate a timer id, draw an order
sequence number, compute the deadline from the clock, push the entry on
the timer heap, and return the timer id. -/
def PiEventLoop.set_timeout (s : PiEventLoop) (delay_ms : Nat) : Nat × PiEventLoop :=
  (s.next_timer_id,
   { s with
     next_timer_id := (s.next_timer_id + 1) % 2 ^ 64,
     seq := satSucc s.seq,
     timers := insertTimer
       ⟨satAdd s.now_ms delay_ms, s.seq, s.next_timer_id, s.seq⟩ s.timers })

/-- `PiEventLoop::clear_timeout`: mark the timer id cancelled; the id is
checked at fire time. -/
def PiEventLoop.clear_timeout (s : PiEventLoop) (timer_id : Nat) : PiEventLoop :=
  { s with cancelled_timers := insert timer_id s.cancelled_timers }

/-- `PiEventLoop::enqueue_macrotask`: assign a fresh sequence number and
push onto the macrotask heap. -/
def PiEventLoop.enqueue_macrotask (s : PiEventLoop) (trace_id : Nat)
    (kind : MacrotaskKind) : PiEventLoop :=
  { s with
    seq := satSucc s.seq,
    macro_queue := insertMacro ⟨s.seq, trace_id, kind⟩ s.macro_queue }

/-- Ingestion worker: enqueue each pending macrotask in buffer order. -/
def ingestList (l : List PendingMacrotask) (s : PiEventLoop) : PiEventLoop :=
  match l with
  | [] => s
  | p :: rest => ingestList rest (s.enqueue_macrotask p.trace_id p.kind)

/-- `PiEventLoop::ingest_pending`: move all pending macrotasks into the
macro queue, assigning sequence numbers in insertion order. -/
def PiEventLoop.ingest_pending (s : PiEventLoop) : PiEventLoop :=
  ingestList s.pending { s with pending := [] }

/-- Drain worker for `enqueue_due_timers`: pop timer-heap entries while
the head deadline is ≤ `now`; a cancelled id is consumed and the entry
discarded, otherwise the entry becomes a `TimerFired` macrotask. -/
def fireDue (now : Nat) (timers : List TimerEntry) (cancelled : Finset Nat)
    (s : PiEventLoop) : List TimerEntry × Finset Nat × PiEventLoop :=
  match timers with
  | [] => ([], cancelled, s)
  | e :: rest =>
    if now < e.deadline_ms then (e :: rest, cancelled, s)
    else if e.timer_id ∈ cancelled then
      fireDue now rest (cancelled.erase e.timer_id) s
    else
      fireDue now rest cancelled
        (s.enqueue_macrotask e.trace_id (.timerFired e.timer_id))

/-- `PiEventLoop::enqueue_due_timers`. -/
def PiEventLoop.enqueue_due_timers (s : PiEventLoop) : PiEventLoop :=
  let r := fireDue s.now_ms s.timers s.cancelled_timers s
  { r.2.2 with timers := r.1, cancelled_timers := r.2.1 }

/-- `PiEventLoop::pop_next_macrotask`: pop the heap minimum. -/
def PiEventLoop.pop_next_macrotask (s : PiEventLoop) :
    Option Macrotask × PiEventLoop :=
  match s.macro_queue with
  | [] => (none, s)
  | m :: rest => (some m, { s with macro_queue := rest })

/-- The sequence of timers a drain at time `now` fires, in order: the due
prefix of the (sorted) timer list with cancelled ids consumed and
skipped. -/
def firedSeq (now : Nat) : List TimerEntry → Finset Nat → List TimerEntry
  | [], _ => []
  | e :: rest, cancelled =>
    if now < e.deadline_ms then []
    else if e.timer_id ∈ cancelled then firedSeq now rest (cancelled.erase e.timer_id)
    else e :: firedSeq now rest cancelled

/-- Number of leading `true`s: how many drain rounds report more work. -/
def countTrues (l : List Bool) : Nat := (l.takeWhile id).length

/-- Everything one `tick` call produces: the macrotask passed to
`on_macrotask` (if any), the returned `TickResult`, the number of times
`drain_microtasks` was invoked, and the post-tick state. -/
structure TickOutcome where
  popped : Option Macrotask
  result : TickResult
  drain_calls : Nat
  state : PiEventLoop

/-- `PiEventLoop::tick`: ingest pending macrotasks, drain due timers, pop
at most one macrotask; when one was popped, invoke `drain_microtasks`
until it reports no more work.  The `drains` list holds the successive
return values of the `drain_microtasks` callback (`false` once
exhausted); the callbacks themselves are represented by the returned
`popped` task and `drain_calls` count. -/
def PiEventLoop.tick (s : PiEventLoop) (drains : List Bool) : TickOutcome :=
  let s2 := s.ingest_pending.enqueue_due_timers
  match s2.pop_next_macrotask with
  | (none, s3) => ⟨none, ⟨false, 0⟩, 0, s3⟩
  | (some m, s3) => ⟨some m, ⟨true, countTrues drains⟩, countTrues drains + 1, s3⟩

/-- The kinds of the macrotasks popped by `n` successive ticks (with no
external enqueues between ticks). -/
def runPops : Nat → PiEventLoop → List MacrotaskKind
  | 0, _ => []
  | n + 1, s =>
    match (s.tick []).popped with
    | none => []
    | some m => m.kind :: runPops n (s.tick []).state

/-- Well-formedness of reachable event-loop states: every queued
macrotask's sequence number is below the counter, the timer list is
sorted by the heap key, the counter has headroom for one tick's worth of
fresh sequence numbers (the counter saturates at `u64::MAX`), and the
pending buffer holds only hostcall completions and inbound events (the
only two producers). -/
def EvLoopWf (s : PiEventLoop) : Prop :=
  (∀ m ∈ s.macro_queue, m.seq < s.seq)
  ∧ s.timers.Pairwise TimerEntry.before
  ∧ s.seq + s.pending.length + s.timers.length ≤ U64MAX
  ∧ (∀ p ∈ s.pending, p.kind.isTimer = false)

def timerOrderScenario : PiEventLoop :=
  ((((PiEventLoop.new 0).set_timeout 10).2.set_timeout 10).2.set_timeout 5).2.setClock 10

def completionVsTimerScenario : PiEventLoop :=
  ((PiEventLoop.new 1000).set_timeout 0).2.enqueue_hostcall_completion "call-1"

/- ═══════════════════ Event-loop lemmas ═══════════════════ -/

/-- Below `u64::MAX` the saturating increment is an ordinary increment. -/
theorem satSucc_of_lt (n : Nat) (h : n < U64MAX) : satSucc n = n + 1 := by
  unfold satSucc
  omega

/-- Inserting an entry whose key exceeds every key in the (sorted) queue
appends it at the end. -/
theorem insertMacro_append (m : Macrotask) (q : List Macrotask)
    (h : ∀ x ∈ q, x.seq < m.seq) : insertMacro m q = q ++ [m] := by
  induction q with
  | nil => rfl
  | cons x xs ih =>
    unfold insertMacro
    rw [if_neg (Nat.not_lt.mpr (Nat.le_of_lt (h x (List.mem_cons_self x xs))))]
    rw [ih (fun y hy => h y (List.mem_cons_of_mem x hy))]
    rfl

/-- Ingesting a pending buffer appends one macrotask per pending entry, in
buffer order and with the buffered kinds, consuming one sequence number
each; all other fields are untouched and queue freshness is preserved. -/
theorem ingestList_spec (l : List PendingMacrotask) (s : PiEventLoop)
    (hq : ∀ x ∈ s.macro_queue, x.seq < s.seq)
    (hb : s.seq + l.length ≤ U64MAX) :
    ∃ entries : List Macrotask,
      (ingestList l s).macro_queue = s.macro_queue ++ entries
      ∧ entries.map Macrotask.kind = l.map PendingMacrotask.kind
      ∧ (ingestList l s).seq = s.seq + l.length
      ∧ (∀ x ∈ (ingestList l s).macro_queue, x.seq < (ingestList l s).seq)
      ∧ (ingestList l s).pending = s.pending
      ∧ (ingestList l s).timers = s.timers
      ∧ (ingestList l s).cancelled_timers = s.cancelled_timers
      ∧ (ingestList l s).now_ms = s.now_ms := by
  induction l generalizing s with
  | nil =>
    exact ⟨[], by simp [ingestList], rfl, by simp [ingestList], hq, rfl, rfl, rfl, rfl⟩
  | cons p rest ih =>
    have hlt : s.seq < U64MAX := by
      simp only [List.length_cons] at hb
      omega
    have hqueue' : (s.enqueue_macrotask p.trace_id p.kind).macro_queue
        = s.macro_queue ++ [⟨s.seq, p.trace_id, p.kind⟩] :=
      insertMacro_append _ _ hq
    have hseq' : (s.enqueue_macrotask p.trace_id p.kind).seq = s.seq + 1 :=
      satSucc_of_lt s.seq hlt
    have hq' : ∀ x ∈ (s.enqueue_macrotask p.trace_id p.kind).macro_queue,
        x.seq < (s.enqueue_macrotask p.trace_id p.kind).seq := by
      intro x hx
      rw [hqueue'] at hx
      rw [hseq']
      rcases List.mem_append.mp hx with h | h
      · exact Nat.lt_succ_of_lt (hq x h)
      · simp only [List.mem_singleton] at h
        subst h
        exact Nat.lt_succ_self _
    have hb' : (s.enqueue_macrotask p.trace_id p.kind).seq + rest.length ≤ U64MAX := by
      rw [hseq']
      simp only [List.length_cons] at hb
      omega
    obtain ⟨entries, c1, c2, c3, c4, c5, c6, c7, c8⟩ :=
      ih (s.enqueue_macrotask p.trace_id p.kind) hq' hb'
    simp only [ingestList]
    refine ⟨⟨s.seq, p.trace_id, p.kind⟩ :: entries, ?_, ?_, ?_, c4, c5, c6, c7, c8⟩
    · rw [c1, hqueue']
      simp
    · simp [c2]
    · rw [c3, hseq']
      simp only [List.length_cons]
      omega

/-- Draining due timers appends one `TimerFired` macrotask per entry of
`firedSeq` (in order), consumes at most one sequence number per timer
entry, leaves a timer list whose head (if any) is not yet due, and keeps
the other fields untouched. -/
theorem fireDue_spec (now : Nat) (timers : List TimerEntry) :
    ∀ (cancelled : Finset Nat) (s : PiEventLoop),
    (∀ x ∈ s.macro_queue, x.seq < s.seq) →
    s.seq + timers.length ≤ U64MAX →
    ∃ entries : List Macrotask,
      (fireDue now timers cancelled s).2.2.macro_queue = s.macro_queue ++ entries
      ∧ entries.map Macrotask.kind
          = (firedSeq now timers cancelled).map
              (fun e => MacrotaskKind.timerFired e.timer_id)
      ∧ (∀ x ∈ (fireDue now timers cancelled s).2.2.macro_queue,
          x.seq < (fireDue now timers cancelled s).2.2.seq)
      ∧ (∀ e, ((fireDue now timers cancelled s).1).head? = some e →
          now < e.deadline_ms)
      ∧ (fireDue now timers cancelled s).2.2.pending = s.pending
      ∧ (fireDue now timers cancelled s).2.2.timers = s.timers
      ∧ (fireDue now timers cancelled s).2.2.cancelled_timers = s.cancelled_timers
      ∧ (fireDue now timers cancelled s).2.2.now_ms = s.now_ms := by
  induction timers with
  | nil =>
    intro cancelled s hq hb
    exact ⟨[], by simp [fireDue], by simp [firedSeq], by simpa [fireDue] using hq,
           by simp [fireDue], rfl, rfl, rfl, rfl⟩
  | cons e rest ih =>
    intro cancelled s hq hb
    by_cases hdue : now < e.deadline_ms
    · refine ⟨[], ?_, ?_, ?_, ?_, ?_, ?_, ?_, ?_⟩
      · simp [fireDue, if_pos hdue]
      · simp [firedSeq, if_pos hdue]
      · simpa [fireDue, if_pos hdue] using hq
      · intro e' he'
        simp only [fireDue, if_pos hdue, List.head?_cons, Option.some.injEq] at he'
        subst he'
        exact hdue
      · simp [fireDue, if_pos hdue]
      · simp [fireDue, if_pos hdue]
      · simp [fireDue, if_pos hdue]
      · simp [fireDue, if_pos hdue]
    · by_cases hcanc : e.timer_id ∈ cancelled
      · have hb' : s.seq + rest.length ≤ U64MAX := by
          simp only [List.length_cons] at hb
          omega
        obtain ⟨entries, c1, c2, c3, c4, c5, c6, c7, c8⟩ :=
          ih (cancelled.erase e.timer_id) s hq hb'
        simp only [fireDue, firedSeq, if_neg hdue, if_pos hcanc]
        exact ⟨entries, c1, c2, c3, c4, c5, c6, c7, c8⟩
      · have hlt : s.seq < U64MAX := by
          simp only [List.length_cons] at hb
          omega
        have hqueue' : (s.enqueue_macrotask e.trace_id
              (.timerFired e.timer_id)).macro_queue
            = s.macro_queue ++ [⟨s.seq, e.trace_id, .timerFired e.timer_id⟩] :=
          insertMacro_append _ _ hq
        have hseq' : (s.enqueue_macrotask e.trace_id
            (.timerFired e.timer_id)).seq = s.seq + 1 :=
          satSucc_of_lt s.seq hlt
        have hq' : ∀ x ∈ (s.enqueue_macrotask e.trace_id
              (.timerFired e.timer_id)).macro_queue,
            x.seq < (s.enqueue_macrotask e.trace_id (.timerFired e.timer_id)).seq := by
          intro x hx
          rw [hqueue'] at hx
          rw [hseq']
          rcases List.mem_append.mp hx with h | h
          · exact Nat.lt_succ_of_lt (hq x h)
          · simp only [List.mem_singleton] at h
            subst h
            exact Nat.lt_succ_self _
        have hb' : (s.enqueue_macrotask e.trace_id
            (.timerFired e.timer_id)).seq + rest.length ≤ U64MAX := by
          rw [hseq']
          simp only [List.length_cons] at hb
          omega
        obtain ⟨entries, c1, c2, c3, c4, c5, c6, c7, c8⟩ :=
          ih cancelled (s.enqueue_macrotask e.trace_id (.timerFired e.timer_id)) hq' hb'
        simp only [fireDue, firedSeq, if_neg hdue, if_neg hcanc]
        refine ⟨⟨s.seq, e.trace_id, .timerFired e.timer_id⟩ :: entries,
          ?_, ?_, c3, c4, c5, c6, c7, c8⟩
        · rw [c1, hqueue']
          simp
        · simp [c2]

/-- Popping takes the queue head and leaves every other field alone. -/
theorem pop_next_spec (s : PiEventLoop) :
    (s.pop_next_macrotask).1 = s.macro_queue.head?
    ∧ (s.pop_next_macrotask).2.macro_queue = s.macro_queue.tail
    ∧ (s.pop_next_macrotask).2.pending = s.pending
    ∧ (s.pop_next_macrotask).2.timers = s.timers
    ∧ (s.pop_next_macrotask).2.now_ms = s.now_ms
    ∧ (s.pop_next_macrotask).2.cancelled_timers = s.cancelled_timers := by
  unfold PiEventLoop.pop_next_macrotask
  rcases hq : s.macro_queue with _ | ⟨m, rest⟩ <;> simp [hq]

/-- A tick is: assemble (ingest, then drain due timers), then pop the
head of the assembled queue; the returned state is the assembled state
minus the popped head. -/
theorem tick_fields (s : PiEventLoop) (d : List Bool) :
    (s.tick d).popped = (s.ingest_pending.enqueue_due_timers).macro_queue.head?
    ∧ (s.tick d).state.macro_queue
        = (s.ingest_pending.enqueue_due_timers).macro_queue.tail
    ∧ (s.tick d).state.pending = (s.ingest_pending.enqueue_due_timers).pending
    ∧ (s.tick d).state.timers = (s.ingest_pending.enqueue_due_timers).timers
    ∧ (s.tick d).state.now_ms = (s.ingest_pending.enqueue_due_timers).now_ms
    ∧ (s.tick d).state.cancelled_timers
        = (s.ingest_pending.enqueue_due_timers).cancelled_timers := by
  obtain ⟨p1, p2, p3, p4, p5, p6⟩ :=
    pop_next_spec (s.ingest_pending.enqueue_due_timers)
  rcases hpr : (s.ingest_pending.enqueue_due_timers).pop_next_macrotask with ⟨op, s3⟩
  rw [hpr] at p1 p2 p3 p4 p5 p6
  unfold PiEventLoop.tick
  dsimp only
  rw [hpr]
  cases op with
  | none => exact ⟨p1, p2, p3, p4, p5, p6⟩
  | some m => exact ⟨p1, p2, p3, p4, p5, p6⟩

/-- On a quiescent state — empty pending buffer, no due timer at the head
of the (sorted) timer list — assembling is the identity. -/
theorem assemble_quiescent (st : PiEventLoop) (hp : st.pending = [])
    (hd : ∀ e, st.timers.head? = some e → st.now_ms < e.deadline_ms) :
    st.ingest_pending.enqueue_due_timers = st := by
  obtain ⟨now, seq, nti, pending, q, timers, canc⟩ := st
  subst hp
  have h1 : (PiEventLoop.mk now seq nti [] q timers canc).ingest_pending
      = PiEventLoop.mk now seq nti [] q timers canc := rfl
  rw [h1]
  unfold PiEventLoop.enqueue_due_timers
  cases timers with
  | nil => rfl
  | cons e rest =>
    have hde : now < e.deadline_ms := hd e rfl
    simp only [fireDue, if_pos hde]

/-- Ticks from a quiescent state pop the queue in order: `n` ticks pop
the first `n` queued macrotask kinds. -/
theorem runPops_quiescent (n : Nat) (st : PiEventLoop) (hp : st.pending = [])
    (hd : ∀ e, st.timers.head? = some e → st.now_ms < e.deadline_ms) :
    runPops n st = (st.macro_queue.map Macrotask.kind).take n := by
  induction n generalizing st with
  | zero => rfl
  | succ n ih =>
    obtain ⟨t1, t2, t3, t4, t5, t6⟩ := tick_fields st []
    rw [assemble_quiescent st hp hd] at t1 t2 t3 t4 t5
    have hrec := ih ((st.tick []).state)
      (by rw [t3]; exact hp)
      (by intro e he; rw [t4] at he; rw [t5]; exact hd e he)
    unfold runPops
    rw [t1]
    cases hq : st.macro_queue with
    | nil => simp
    | cons m rest =>
      simp only [List.head?_cons]
      rw [hrec, t2, hq]
      simp

/-- All the macrotask kinds a tick starting at `s` can ever feed to
`on_macrotask`, in pop order: the backlog already in the queue, then the
pending buffer (in arrival order), then the due timers (in heap order). -/
def assembledKinds (s : PiEventLoop) : List MacrotaskKind :=
  s.macro_queue.map Macrotask.kind
    ++ s.pending.map PendingMacrotask.kind
    ++ (firedSeq s.now_ms s.timers s.cancelled_timers).map
        (fun e => MacrotaskKind.timerFired e.timer_id)

/-- One tick from a well-formed state: the assembled queue's kinds are
`assembledKinds`, the popped task is its head, the remaining queue its
tail, and the post state is quiescent. -/
theorem tick_wf_spec (s : PiEventLoop) (hwf : EvLoopWf s) (d : List Bool) :
    ∃ A : List Macrotask,
      A.map Macrotask.kind = assembledKinds s
      ∧ (s.tick d).popped = A.head?
      ∧ (s.tick d).state.macro_queue = A.tail
      ∧ (s.tick d).state.pending = []
      ∧ (∀ e, (s.tick d).state.timers.head? = some e →
          (s.tick d).state.now_ms < e.deadline_ms) := by
  obtain ⟨hq, hsort, hb, hkind⟩ := hwf
  obtain ⟨ing, c1, c2, c3, c4, c5, c6, c7, c8⟩ :=
    ingestList_spec s.pending {s with pending := []} hq
      (by show s.seq + s.pending.length ≤ U64MAX; omega)
  have d1 : s.ingest_pending.macro_queue = s.macro_queue ++ ing := c1
  have d3 : s.ingest_pending.seq = s.seq + s.pending.length := c3
  have d4 : ∀ x ∈ s.ingest_pending.macro_queue, x.seq < s.ingest_pending.seq := c4
  have d5 : s.ingest_pending.pending = [] := c5
  have d6 : s.ingest_pending.timers = s.timers := c6
  have d7 : s.ingest_pending.cancelled_timers = s.cancelled_timers := c7
  have d8 : s.ingest_pending.now_ms = s.now_ms := c8
  have hbf : s.ingest_pending.seq + s.ingest_pending.timers.length ≤ U64MAX := by
    rw [d3, d6]
    omega
  obtain ⟨fired, f1, f2, f3, f4, f5, f6, f7, f8⟩ :=
    fireDue_spec s.ingest_pending.now_ms s.ingest_pending.timers
      s.ingest_pending.cancelled_timers s.ingest_pending d4 hbf
  have g1 : s.ingest_pending.enqueue_due_timers.macro_queue
      = (s.macro_queue ++ ing) ++ fired := by
    have : s.ingest_pending.enqueue_due_timers.macro_queue
        = s.ingest_pending.macro_queue ++ fired := f1
    rw [this, d1]
  have g2 : s.ingest_pending.enqueue_due_timers.pending = [] := by
    have : s.ingest_pending.enqueue_due_timers.pending
        = s.ingest_pending.pending := f5
    rw [this, d5]
  have g4 : ∀ e, s.ingest_pending.enqueue_due_timers.timers.head? = some e →
      s.ingest_pending.enqueue_due_timers.now_ms < e.deadline_ms := by
    intro e he
    have hnow : s.ingest_pending.enqueue_due_timers.now_ms
        = s.ingest_pending.now_ms := f8
    rw [hnow]
    exact f4 e he
  have hAkinds : ((s.macro_queue ++ ing) ++ fired).map Macrotask.kind
      = assembledKinds s := by
    unfold assembledKinds
    rw [List.map_append, List.map_append, c2, f2, d8, d6, d7]
  obtain ⟨t1, t2, t3, t4, t5, t6⟩ := tick_fields s d
  refine ⟨(s.macro_queue ++ ing) ++ fired, hAkinds, ?_, ?_, ?_, ?_⟩
  · rw [t1, g1]
  · rw [t2, g1]
  · rw [t3, g2]
  · intro e he
    rw [t4] at he
    rw [t5]
    exact g4 e he

/-- Master pop-order lemma: from a well-formed state, `n` ticks pop the
first `n` entries of the assembled kind list — backlog, then pending
buffer, then due timers. -/
theorem runPops_eq (n : Nat) (s : PiEventLoop) (hwf : EvLoopWf s) :
    runPops n s = (assembledKinds s).take n := by
  obtain ⟨A, hA, hpop, htail, hpend, hdue⟩ := tick_wf_spec s hwf []
  cases n with
  | zero => rfl
  | succ n =>
    unfold runPops
    rw [hpop]
    cases hAc : A with
    | nil =>
      have hempty : assembledKinds s = [] := by
        rw [← hA, hAc]
        rfl
      rw [hempty]
      rfl
    | cons m rest =>
      simp only [List.head?_cons]
      have hrec := runPops_quiescent n ((s.tick []).state) hpend hdue
      rw [hrec, htail, hAc, ← hA, hAc]
      simp

/-- The fired timers form a sublist of the timer list. -/
theorem firedSeq_sublist (now : Nat) (timers : List TimerEntry) :
    ∀ cancelled : Finset Nat, (firedSeq now timers cancelled).Sublist timers := by
  induction timers with
  | nil =>
    intro c
    simp [firedSeq]
  | cons e rest ih =>
    intro c
    by_cases hdue : now < e.deadline_ms
    · simp only [firedSeq, if_pos hdue]
      exact List.nil_sublist _
    · by_cases hcanc : e.timer_id ∈ c
      · simp only [firedSeq, if_neg hdue, if_pos hcanc]
        exact List.Sublist.cons e (ih (c.erase e.timer_id))
      · simp only [firedSeq, if_neg hdue, if_neg hcanc]
        exact List.Sublist.cons₂ e (ih c)

/-- A kind list made of queue-backlog kinds never contains a fired-timer
kind when the backlog has none. -/
theorem no_timer_kind_at (l : List Macrotask) (tid : Nat)
    (h : ∀ m ∈ l, m.kind.isTimer = false) :
    ∀ k : Nat, (l.map Macrotask.kind)[k]? = some (MacrotaskKind.timerFired tid) → False := by
  intro k hk
  rw [List.getElem?_map] at hk
  cases hq : l[k]? with
  | none =>
    rw [hq] at hk
    simp at hk
  | some m =>
    rw [hq] at hk
    simp only [Option.map_some', Option.some.injEq] at hk
    obtain ⟨hlt, hEq⟩ := List.getElem?_eq_some_iff.mp hq
    have hmem : m ∈ l := hEq ▸ List.getElem_mem hlt
    have := h m hmem
    rw [hk] at this
    simp [MacrotaskKind.isTimer] at this

/-- Pending-buffer analog of `no_timer_kind_at`. -/
theorem no_timer_kind_at_pending (l : List PendingMacrotask) (tid : Nat)
    (h : ∀ p ∈ l, p.kind.isTimer = false) :
    ∀ k : Nat, (l.map PendingMacrotask.kind)[k]?
      = some (MacrotaskKind.timerFired tid) → False := by
  intro k hk
  rw [List.getElem?_map] at hk
  cases hq : l[k]? with
  | none =>
    rw [hq] at hk
    simp at hk
  | some p =>
    rw [hq] at hk
    simp only [Option.map_some', Option.some.injEq] at hk
    obtain ⟨hlt, hEq⟩ := List.getElem?_eq_some_iff.mp hq
    have hmem : p ∈ l := hEq ▸ List.getElem_mem hlt
    have := h p hmem
    rw [hk] at this
    simp [MacrotaskKind.isTimer] at this

/-- C4: from any well-formed event-loop state in which the pending buffer
holds a hostcall completion (enqueued before the tick) and the timer heap
holds a non-cancelled timer that is already due, the run of ticks pops the
completion macrotask strictly before any pop of that timer's macrotask:
pending macrotasks are ingested (and given sequence numbers) before due
timers are drained, and pops follow sequence order. -/
theorem completion_pops_before_due_timer (s : PiEventLoop) (hwf : EvLoopWf s)
    (cid : String) (pm : PendingMacrotask) (hpm : pm ∈ s.pending)
    (hpmk : pm.kind = MacrotaskKind.hostcallComplete cid)
    (te : TimerEntry) (hte : te ∈ s.timers)
    (hdue : te.deadline_ms ≤ s.now_ms)
    (hnc : te.timer_id ∉ s.cancelled_timers)
    (hqnt : ∀ m ∈ s.macro_queue, m.kind.isTimer = false) :
    ∀ n j : Nat, (runPops n s)[j]? = some (MacrotaskKind.timerFired te.timer_id) →
      ∃ i : Nat, i < j
        ∧ (runPops n s)[i]? = some (MacrotaskKind.hostcallComplete cid) := by
  intro n j hj
  rw [runPops_eq n s hwf] at hj ⊢
  have hjn : j < n := by
    have hlen := (List.getElem?_eq_some_iff.mp hj).1
    rw [List.length_take] at hlen
    exact Nat.lt_of_lt_of_le hlen (min_le_left _ _)
  rw [List.getElem?_take_of_lt hjn] at hj
  unfold assembledKinds at hj
  have hK1 := no_timer_kind_at s.macro_queue te.timer_id hqnt
  have hK2 := no_timer_kind_at_pending s.pending te.timer_id hwf.2.2.2
  have hjge : (s.macro_queue.map Macrotask.kind).length
      + (s.pending.map PendingMacrotask.kind).length ≤ j := by
    by_contra hlt
    push_neg at hlt
    have h12 : j < ((s.macro_queue.map Macrotask.kind)
        ++ (s.pending.map PendingMacrotask.kind)).length := by
      rw [List.length_append]
      omega
    rw [List.getElem?_append, if_pos h12] at hj
    rcases Nat.lt_or_ge j (s.macro_queue.map Macrotask.kind).length with h1 | h1
    · rw [List.getElem?_append, if_pos h1] at hj
      exact hK1 j hj
    · rw [List.getElem?_append, if_neg (Nat.not_lt.mpr h1)] at hj
      exact hK2 _ hj
  obtain ⟨ip, hip⟩ := List.mem_iff_getElem?.mp hpm
  have hiplen : ip < s.pending.length := (List.getElem?_eq_some_iff.mp hip).1
  have hilt : (s.macro_queue.map Macrotask.kind).length + ip < j := by
    have hip2 : ip < (s.pending.map PendingMacrotask.kind).length := by
      rw [List.length_map]
      exact hiplen
    omega
  refine ⟨(s.macro_queue.map Macrotask.kind).length + ip, hilt, ?_⟩
  rw [List.getElem?_take_of_lt (Nat.lt_trans hilt hjn)]
  unfold assembledKinds
  have h12 : (s.macro_queue.map Macrotask.kind).length + ip
      < ((s.macro_queue.map Macrotask.kind)
          ++ (s.pending.map PendingMacrotask.kind)).length := by
    rw [List.length_append, List.length_map, List.length_map]
    omega
  rw [List.getElem?_append, if_pos h12]
  rw [List.getElem?_append,
    if_neg (by omega : ¬ ((s.macro_queue.map Macrotask.kind).length + ip
      < (s.macro_queue.map Macrotask.kind).length))]
  have hsub : (s.macro_queue.map Macrotask.kind).length + ip
      - (s.macro_queue.map Macrotask.kind).length = ip := by omega
  rw [hsub, List.getElem?_map, hip]
  simp [hpmk]

/-- C4 witness: the spec scenario — manual clock at 1000, a timer with
delay 0 scheduled, then a completion for `call-1` enqueued.  The single
tick pops the completion first and the next tick pops the timer. -/
theorem completion_pops_before_due_timer_witness :
    (EvLoopWf completionVsTimerScenario
      ∧ (⟨1, MacrotaskKind.hostcallComplete "call-1"⟩ : PendingMacrotask)
          ∈ completionVsTimerScenario.pending
      ∧ (⟨1000, 0, 1, 0⟩ : TimerEntry) ∈ completionVsTimerScenario.timers
      ∧ (1000 : Nat) ≤ completionVsTimerScenario.now_ms
      ∧ (1 : Nat) ∉ completionVsTimerScenario.cancelled_timers)
    ∧ (∀ n j : Nat, (runPops n completionVsTimerScenario)[j]?
          = some (MacrotaskKind.timerFired 1) →
        ∃ i : Nat, i < j ∧ (runPops n completionVsTimerScenario)[i]?
          = some (MacrotaskKind.hostcallComplete "call-1"))
    ∧ runPops 2 completionVsTimerScenario
        = [MacrotaskKind.hostcallComplete "call-1", MacrotaskKind.timerFired 1] :=
  ⟨⟨⟨by decide, by decide, by decide, by decide⟩, by decide, by decide,
    by decide, by decide⟩,
   completion_pops_before_due_timer completionVsTimerScenario
     ⟨by decide, by decide, by decide, by decide⟩
     "call-1" ⟨1, MacrotaskKind.hostcallComplete "call-1"⟩ (by decide) (by decide)
     ⟨1000, 0, 1, 0⟩ (by decide) (by decide) (by decide) (by decide),
   by decide⟩

/-- C5: due timers are drained and fired in strictly increasing
lexicographic `(deadline_ms, order_seq, timer_id)` order — so timers that
share a deadline fire in scheduling order — and those fired timers enter
the pop stream after the already-queued and pending macrotasks, in
exactly that order; in particular, scheduling T1(+10), T2(+10), T3(+5) at
t = 0 and setting the clock to 10 makes three successive ticks pop
[T3, T1, T2]. -/
theorem timers_fire_in_lex_order :
    (∀ s : PiEventLoop, EvLoopWf s →
        (firedSeq s.now_ms s.timers s.cancelled_timers).Pairwise TimerEntry.before
        ∧ ∀ n : Nat, runPops n s = (assembledKinds s).take n)
    ∧ runPops 3 timerOrderScenario
        = [MacrotaskKind.timerFired 3, MacrotaskKind.timerFired 1,
           MacrotaskKind.timerFired 2] := by
  constructor
  · intro s hwf
    exact ⟨List.Pairwise.sublist
        (firedSeq_sublist s.now_ms s.timers s.cancelled_timers) hwf.2.1,
      fun n => runPops_eq n s hwf⟩
  · decide

/-- C5 witness: the shared-deadline scenario state is well-formed, and
the theorem applies to it. -/
theorem timers_fire_in_lex_order_witness :
    EvLoopWf timerOrderScenario
    ∧ ((firedSeq timerOrderScenario.now_ms timerOrderScenario.timers
          timerOrderScenario.cancelled_timers).Pairwise TimerEntry.before
       ∧ ∀ n : Nat, runPops n timerOrderScenario
          = (assembledKinds timerOrderScenario).take n) :=
  ⟨⟨by decide, by decide, by decide, by decide⟩,
   timers_fire_in_lex_order.1 timerOrderScenario
     ⟨by decide, by decide, by decide, by decide⟩⟩

/-- C6: a tick pops at most one macrotask — exactly the head of the
assembled queue, leaving its tail; when a macrotask was popped the
result reports `ran_macrotask = true` with `microtasks_drained` counting
the successful drain rounds and `drain_microtasks` invoked once more
than that (the final round reports no work); when none was popped,
`drain_microtasks` is never invoked and `ran_macrotask = false`. -/
theorem tick_pops_at_most_one (s : PiEventLoop) (drains : List Bool) :
    (s.tick drains).popped = (s.ingest_pending.enqueue_due_timers).macro_queue.head?
    ∧ (s.tick drains).state.macro_queue
        = (s.ingest_pending.enqueue_due_timers).macro_queue.tail
    ∧ ((s.tick drains).popped.isSome = true →
        (s.tick drains).result = ⟨true, countTrues drains⟩
        ∧ (s.tick drains).drain_calls = countTrues drains + 1)
    ∧ ((s.tick drains).popped = none →
        (s.tick drains).result = ⟨false, 0⟩
        ∧ (s.tick drains).drain_calls = 0) := by
  obtain ⟨p1, p2, p3, p4, p5, p6⟩ :=
    pop_next_spec (s.ingest_pending.enqueue_due_timers)
  rcases hpr : (s.ingest_pending.enqueue_due_timers).pop_next_macrotask with ⟨op, s3⟩
  rw [hpr] at p1 p2
  unfold PiEventLoop.tick
  dsimp only
  rw [hpr]
  cases op with
  | none =>
    refine ⟨p1, p2, ?_, ?_⟩
    · intro h
      simp at h
    · intro _
      exact ⟨rfl, rfl⟩
  | some m =>
    refine ⟨p1, p2, ?_, ?_⟩
    · intro _
      exact ⟨rfl, rfl⟩
    · intro h
      simp at h

/-- C6 witness: the `microtasks_drain_to_fixpoint_after_macrotask`
scenario — an inbound event, drain rounds reporting work twice: the tick
runs the macrotask, drains two rounds, and calls the drain callback three
times. -/
theorem tick_pops_at_most_one_witness :
    ((((PiEventLoop.new 0).enqueue_inbound_event
        "evt-1").tick [true, true]).popped.isSome = true)
    ∧ ((((PiEventLoop.new 0).enqueue_inbound_event
          "evt-1").tick [true, true]).result = ⟨true, 2⟩
       ∧ ((((PiEventLoop.new 0).enqueue_inbound_event
          "evt-1").tick [true, true])).drain_calls = 3) :=
  ⟨by decide,
   (tick_pops_at_most_one ((PiEventLoop.new 0).enqueue_inbound_event "evt-1")
     [true, true]).2.2.1 (by decide)⟩

/- ═══════════════════ Promise bridge: PendingHostcalls (src/extensions_js.rs) ═══════════════════ -/

/-- JS values as produced by `json_to_js`.  `int` is a 32-bit integer
(`Value::new_int`); `floatApprox` abstracts the `Value::new_float`
fallback for numbers outside the `i64` range (floating point, outside
the claims), recording the source integer. -/
inductive JsValue
  | null
  | bool (b : Bool)
  | int (i : Int)
  | floatApprox (n : Int)
  | str (s : String)
  | arr (elems : List JsValue)
  | obj (fields : List (String × JsValue))

/-- Lower bound of `i64`. -/
def I64MIN : Int := -(2 ^ 63)

/-- Upper bound of `i64`. -/
def I64MAX : Int := 2 ^ 63 - 1

/-- `serde_json::Number::as_i64` on the integer-number model: succeeds
exactly on the `i64` range. -/
def asI64 (n : Int) : Option Int :=
  if I64MIN ≤ n ∧ n ≤ I64MAX then some n else none

/-- Rust `i as i32` truncating cast of a 64-bit integer: keep the low 32
bits, two's complement. -/
def i32Wrap (n : Int) : Int := (n + 2 ^ 31) % 2 ^ 32 - 2 ^ 31

/-- `json_to_js` of `src/extensions_js.rs`: null, booleans and strings map
directly; a number whose `as_i64` succeeds becomes `Value::new_int(i as
i32)` — a truncating 32-bit cast; other numbers take the `as_f64` /
`Value::new_float` path (`floatApprox`); arrays and objects convert
element-wise. -/
def json_to_js : Json → JsValue
  | .null => .null
  | .bool b => .bool b
  | .num n =>
    match asI64 n with
    | some i => .int (i32Wrap i)
    | none => .floatApprox n
  | .str s => .str s
  | .arr elems => .arr (elems.attach.map (fun x => json_to_js x.1))
  | .obj fields => .obj (fields.attach.map (fun x => (x.1.1, json_to_js x.1.2)))
termination_by j => sizeOf j
decreasing_by
  · simp_wf
    have := List.sizeOf_lt_of_mem x.2
    omega
  · simp_wf
    obtain ⟨⟨k, v⟩, hx⟩ := x
    have := List.sizeOf_lt_of_mem hx
    simp at this ⊢
    omega

/-- A recorded invocation of a stored promise resolver: `resolve.call(value)`
or `reject.call({code, message})`.  The stored JS `(resolve, reject)`
function pair is abstracted as the token it was registered with. -/
inductive SettleEvent
  | resolved (call_id : String) (tok : Nat) (value : JsValue)
  | rejected (call_id : String) (tok : Nat) (code : String) (message : String)

/-- The call id a settlement event belongs to. -/
def SettleEvent.callId : SettleEvent → String
  | .resolved cid _ _ => cid
  | .rejected cid _ _ _ => cid

/-- `HostcallOutcome` (scheduler module): success JSON value, or error
with string code and message. -/
inductive HostcallOutcome
  | success (value : Json)
  | error (code : String) (message : String)

/-- `PendingHostcalls` of `src/extensions_js.rs`: the `HashMap` from
call id to the `(resolve, reject)` pair (abstracted as a token; the map
is represented as an association list holding at most one entry per key)
plus the `next_id` counter. -/
structure PendingHostcalls where
  pending : List (String × Nat)
  next_id : Nat

/-- `PendingHostcalls::new`. -/
def PendingHostcalls.new : PendingHostcalls := ⟨[], 1⟩

/-- `PendingHostcalls::next_call_id`: `"call-{id}"`, saturating counter. -/
def PendingHostcalls.next_call_id (p : PendingHostcalls) : String × PendingHostcalls :=
  ("call-" ++ toString p.next_id, { p with next_id := satSucc p.next_id })

/-- `PendingHostcalls::register`: `HashMap::insert` — the new resolver
pair replaces any previous entry under the same call id. -/
def PendingHostcalls.register (p : PendingHostcalls) (call_id : String)
    (tok : Nat) : PendingHostcalls :=
  { p with
    pending := (call_id, tok) :: p.pending.filter (fun kv => !(kv.1 == call_id)) }

/-- `PendingHostcalls::complete`: remove the resolver pair for the call
id (returning `false` and settling nothing when absent), then invoke
`resolve` with the converted success value or `reject` with a
`{code, message}` object. -/
def PendingHostcalls.complete (p : PendingHostcalls) (call_id : String)
    (outcome : HostcallOutcome) : Bool × List SettleEvent × PendingHostcalls :=
  match p.pending.lookup call_id with
  | none => (false, [], p)
  | some tok =>
    let removed : PendingHostcalls :=
      { p with pending := p.pending.filter (fun kv => !(kv.1 == call_id)) }
    match outcome with
    | .success v => (true, [.resolved call_id tok (json_to_js v)], removed)
    | .error code message => (true, [.rejected call_id tok code message], removed)

/-- `PendingHostcalls::cancel`: remove the resolver pair for the call id
(returning `false` when absent) and reject with code `"CANCELLED"` and
the caller-provided reason. -/
def PendingHostcalls.cancel (p : PendingHostcalls) (call_id : String)
    (reason : String) : Bool × List SettleEvent × PendingHostcalls :=
  match p.pending.lookup call_id with
  | none => (false, [], p)
  | some tok =>
    (true, [.rejected call_id tok "CANCELLED" reason],
     { p with pending := p.pending.filter (fun kv => !(kv.1 == call_id)) })

/-- An operation on the pending-hostcall table. -/
inductive HcOp
  | register (call_id : String) (tok : Nat)
  | complete (call_id : String) (outcome : HostcallOutcome)
  | cancel (call_id : String) (reason : String)

/-- Is this operation a settlement attempt (complete or cancel) for `cid`? -/
def HcOp.isSettleFor (cid : String) : HcOp → Bool
  | .register _ _ => false
  | .complete c _ => c == cid
  | .cancel c _ => c == cid

/-- Is this operation a registration for `cid`? -/
def HcOp.isRegisterFor (cid : String) : HcOp → Bool
  | .register c _ => c == cid
  | _ => false

/-- Execute one operation: the first component is the returned boolean
(`none` for `register`, which returns nothing) with the resolver
invocations the operation performed; the second is the new table. -/
def hcStep (p : PendingHostcalls) :
    HcOp → (Option Bool × List SettleEvent) × PendingHostcalls
  | .register cid tok => ((none, []), p.register cid tok)
  | .complete cid oc =>
    ((some (p.complete cid oc).1, (p.complete cid oc).2.1), (p.complete cid oc).2.2)
  | .cancel cid reason =>
    ((some (p.cancel cid reason).1, (p.cancel cid reason).2.1),
     (p.cancel cid reason).2.2)

/-- Run a sequence of operations, collecting each operation's result. -/
def runOps (p : PendingHostcalls) :
    List HcOp → List (Option Bool × List SettleEvent) × PendingHostcalls
  | [] => ([], p)
  | op :: rest =>
    ((hcStep p op).1 :: (runOps (hcStep p op).2 rest).1,
     (runOps (hcStep p op).2 rest).2)

/-- All resolver invocations for `cid` across a result list. -/
def eventsFor (cid : String)
    (results : List (Option Bool × List SettleEvent)) : List SettleEvent :=
  ((results.map Prod.snd).flatten).filter (fun ev => ev.callId == cid)

/- ═══════════════════ Assoc-list lemmas for the pending table ═══════════════════ -/

/-- Filtering out a key makes its lookup fail. -/
theorem lookup_filter_self (l : List (String × Nat)) (cid : String) :
    (l.filter (fun kv => !(kv.1 == cid))).lookup cid = none := by
  induction l with
  | nil => rfl
  | cons kv rest ih =>
    rcases kv with ⟨k, v⟩
    by_cases h : k = cid
    · have hb : (k == cid) = true := beq_iff_eq.mpr h
      simp [List.filter_cons, hb, ih]
    · have hb : (k == cid) = false := beq_eq_false_iff_ne.mpr h
      have hb2 : (cid == k) = false := beq_eq_false_iff_ne.mpr (fun e => h e.symm)
      simp [List.filter_cons, hb, List.lookup, hb2, ih]

/-- Filtering out one key leaves other lookups unchanged. -/
theorem lookup_filter_other (l : List (String × Nat)) (c cid : String)
    (h : ¬(cid = c)) :
    (l.filter (fun kv => !(kv.1 == c))).lookup cid = l.lookup cid := by
  induction l with
  | nil => rfl
  | cons kv rest ih =>
    rcases kv with ⟨k, v⟩
    by_cases hk : k = c
    · have hb : (k == c) = true := beq_iff_eq.mpr hk
      have hb2 : (cid == k) = false := by
        refine beq_eq_false_iff_ne.mpr ?_
        intro e
        exact h (e.trans hk)
      simp [List.filter_cons, hb, List.lookup, hb2, ih]
    · have hb : (k == c) = false := beq_eq_false_iff_ne.mpr hk
      by_cases hck : cid = k
      · have hb2 : (cid == k) = true := beq_iff_eq.mpr hck
        simp [List.filter_cons, hb, List.lookup, hb2]
      · have hb2 : (cid == k) = false := beq_eq_false_iff_ne.mpr hck
        simp [List.filter_cons, hb, List.lookup, hb2, ih]

/-- After registration, the call id resolves to the new token. -/
theorem register_lookup_self (p : PendingHostcalls) (cid : String) (tok : Nat) :
    (p.register cid tok).pending.lookup cid = some tok := by
  show List.lookup cid ((cid, tok) :: p.pending.filter (fun kv => !(kv.1 == cid)))
    = some tok
  simp [List.lookup]

/-- Registering one call id does not affect lookups of another. -/
theorem register_lookup_other (p : PendingHostcalls) (c : String) (tok : Nat)
    (cid : String) (h : ¬(cid = c)) :
    (p.register c tok).pending.lookup cid = p.pending.lookup cid := by
  have hb : (cid == c) = false := beq_eq_false_iff_ne.mpr h
  show List.lookup cid ((c, tok) :: p.pending.filter (fun kv => !(kv.1 == c)))
    = p.pending.lookup cid
  simp [List.lookup, hb, lookup_filter_other p.pending c cid h]

/-- Completing an absent call id: `false`, no resolver invoked, table
unchanged. -/
theorem complete_absent (p : PendingHostcalls) (cid : String)
    (oc : HostcallOutcome) (h : p.pending.lookup cid = none) :
    p.complete cid oc = (false, [], p) := by
  unfold PendingHostcalls.complete
  rw [h]

/-- Cancelling an absent call id: `false`, no resolver invoked, table
unchanged. -/
theorem cancel_absent (p : PendingHostcalls) (cid : String) (reason : String)
    (h : p.pending.lookup cid = none) :
    p.cancel cid reason = (false, [], p) := by
  unfold PendingHostcalls.cancel
  rw [h]

/-- Completing a present call id: returns `true`, invokes exactly one
resolver (for this call id), and removes the entry first — a second
lookup fails while other ids are untouched. -/
theorem complete_present (p : PendingHostcalls) (cid : String) (tok : Nat)
    (oc : HostcallOutcome) (h : p.pending.lookup cid = some tok) :
    (p.complete cid oc).1 = true
    ∧ (p.complete cid oc).2.1.length = 1
    ∧ (∀ ev ∈ (p.complete cid oc).2.1, ev.callId = cid)
    ∧ (p.complete cid oc).2.2.pending.lookup cid = none
    ∧ (∀ c2, ¬(c2 = cid) →
        (p.complete cid oc).2.2.pending.lookup c2 = p.pending.lookup c2) := by
  unfold PendingHostcalls.complete
  rw [h]
  cases oc with
  | success v =>
    refine ⟨rfl, rfl, ?_, lookup_filter_self _ _,
      fun c2 hc2 => lookup_filter_other _ _ _ hc2⟩
    intro ev hev
    simp only [List.mem_singleton] at hev
    subst hev
    rfl
  | error code message =>
    refine ⟨rfl, rfl, ?_, lookup_filter_self _ _,
      fun c2 hc2 => lookup_filter_other _ _ _ hc2⟩
    intro ev hev
    simp only [List.mem_singleton] at hev
    subst hev
    rfl

/-- Cancelling a present call id: returns `true`, rejects exactly once
(code `"CANCELLED"`, caller-provided reason), and removes the entry. -/
theorem cancel_present (p : PendingHostcalls) (cid : String) (tok : Nat)
    (reason : String) (h : p.pending.lookup cid = some tok) :
    (p.cancel cid reason).1 = true
    ∧ (p.cancel cid reason).2.1 = [.rejected cid tok "CANCELLED" reason]
    ∧ (p.cancel cid reason).2.2.pending.lookup cid = none
    ∧ (∀ c2, ¬(c2 = cid) →
        (p.cancel cid reason).2.2.pending.lookup c2 = p.pending.lookup c2) := by
  unfold PendingHostcalls.cancel
  rw [h]
  exact ⟨rfl, rfl, lookup_filter_self _ _,
    fun c2 hc2 => lookup_filter_other _ _ _ hc2⟩

/-- Unfolding `eventsFor` over one result. -/
theorem eventsFor_cons (cid : String) (r : Option Bool × List SettleEvent)
    (rest : List (Option Bool × List SettleEvent)) :
    eventsFor cid (r :: rest)
      = r.2.filter (fun ev => ev.callId == cid) ++ eventsFor cid rest := by
  unfold eventsFor
  simp [List.filter_append]

/-- Events that all belong to a different call id vanish under the
`eventsFor` filter. -/
theorem filter_events_other (evs : List SettleEvent) (c cid : String)
    (hne : ¬(c = cid)) (h : ∀ ev ∈ evs, ev.callId = c) :
    evs.filter (fun ev => ev.callId == cid) = [] := by
  rw [List.filter_eq_nil]
  intro ev hev
  rw [h ev hev]
  simp [hne]

/-- One step of an operation that neither settles nor registers `cid`:
no resolver invocation for `cid` and `cid`'s lookup is unchanged. -/
theorem hcStep_other (p : PendingHostcalls) (cid : String) (op : HcOp)
    (hset : op.isSettleFor cid = false) (hreg : op.isRegisterFor cid = false) :
    (hcStep p op).1.2.filter (fun ev => ev.callId == cid) = []
    ∧ (hcStep p op).2.pending.lookup cid = p.pending.lookup cid := by
  cases op with
  | register c tok =>
    have hc : ¬(cid = c) := by
      simp only [HcOp.isRegisterFor] at hreg
      intro e
      rw [e] at hreg
      simp at hreg
    exact ⟨rfl, register_lookup_other p c tok cid hc⟩
  | complete c oc =>
    have hc : ¬(c = cid) := by
      simp only [HcOp.isSettleFor] at hset
      intro e
      rw [e] at hset
      simp at hset
    cases hlk : p.pending.lookup c with
    | none =>
      have habs := complete_absent p c oc hlk
      constructor
      · show ((p.complete c oc).2.1.filter _) = []
        rw [habs]
        rfl
      · show (p.complete c oc).2.2.pending.lookup cid = p.pending.lookup cid
        rw [habs]
    | some tok =>
      obtain ⟨e1, e2, e3, e4, e5⟩ := complete_present p c tok oc hlk
      constructor
      · exact filter_events_other _ c cid hc e3
      · exact e5 cid (fun e => hc e.symm)
  | cancel c reason =>
    have hc : ¬(c = cid) := by
      simp only [HcOp.isSettleFor] at hset
      intro e
      rw [e] at hset
      simp at hset
    cases hlk : p.pending.lookup c with
    | none =>
      have habs := cancel_absent p c reason hlk
      constructor
      · show ((p.cancel c reason).2.1.filter _) = []
        rw [habs]
        rfl
      · show (p.cancel c reason).2.2.pending.lookup cid = p.pending.lookup cid
        rw [habs]
    | some tok =>
      obtain ⟨e1, e2, e3, e4⟩ := cancel_present p c tok reason hlk
      constructor
      · refine filter_events_other _ c cid hc ?_
        show ∀ ev ∈ (p.cancel c reason).2.1, ev.callId = c
        rw [e2]
        intro ev hev
        simp only [List.mem_singleton] at hev
        subst hev
        rfl
      · exact e4 cid (fun e => hc e.symm)

/-- One step of a settlement attempt for `cid` on a table without `cid`:
the operation returns `false`, invokes nothing, and leaves the table
unchanged. -/
theorem hcStep_settle_absent (p : PendingHostcalls) (cid : String) (op : HcOp)
    (hset : op.isSettleFor cid = true) (h : p.pending.lookup cid = none) :
    (hcStep p op).1 = (some false, []) ∧ (hcStep p op).2 = p := by
  cases op with
  | register c tok =>
    simp [HcOp.isSettleFor] at hset
  | complete c oc =>
    have hc : c = cid := by
      simpa [HcOp.isSettleFor] using hset
    subst hc
    have habs := complete_absent p c oc h
    constructor
    · show (some (p.complete c oc).1, (p.complete c oc).2.1) = (some false, [])
      rw [habs]
    · show (p.complete c oc).2.2 = p
      rw [habs]
  | cancel c reason =>
    have hc : c = cid := by
      simpa [HcOp.isSettleFor] using hset
    subst hc
    have habs := cancel_absent p c reason h
    constructor
    · show (some (p.cancel c reason).1, (p.cancel c reason).2.1) = (some false, [])
      rw [habs]
    · show (p.cancel c reason).2.2 = p
      rw [habs]

/-- One step of a settlement attempt for a present `cid`: returns `true`,
invokes exactly one resolver for `cid`, and removes the entry. -/
theorem hcStep_settle_present (p : PendingHostcalls) (cid : String) (op : HcOp)
    (tok : Nat) (hset : op.isSettleFor cid = true)
    (h : p.pending.lookup cid = some tok) :
    (hcStep p op).1.1 = some true
    ∧ (∀ ev ∈ (hcStep p op).1.2, ev.callId = cid)
    ∧ ((hcStep p op).1.2.filter (fun ev => ev.callId == cid)).length ≤ 1
    ∧ (hcStep p op).2.pending.lookup cid = none := by
  cases op with
  | register c tok2 =>
    simp [HcOp.isSettleFor] at hset
  | complete c oc =>
    have hc : c = cid := by
      simpa [HcOp.isSettleFor] using hset
    subst hc
    obtain ⟨e1, e2, e3, e4, e5⟩ := complete_present p c tok oc h
    refine ⟨by rw [show (hcStep p (.complete c oc)).1.1 = some (p.complete c oc).1
        from rfl, e1], e3, ?_, e4⟩
    calc ((p.complete c oc).2.1.filter (fun ev => ev.callId == c)).length
        ≤ (p.complete c oc).2.1.length := List.length_filter_le _ _
      _ = 1 := e2
  | cancel c reason =>
    have hc : c = cid := by
      simpa [HcOp.isSettleFor] using hset
    subst hc
    obtain ⟨e1, e2, e3, e4⟩ := cancel_present p c tok reason h
    refine ⟨by rw [show (hcStep p (.cancel c reason)).1.1 = some (p.cancel c reason).1
        from rfl, e1], ?_, ?_, e3⟩
    · rw [show (hcStep p (.cancel c reason)).1.2 = (p.cancel c reason).2.1 from rfl, e2]
      intro ev hev
      simp only [List.mem_singleton] at hev
      subst hev
      rfl
    · rw [show (hcStep p (.cancel c reason)).1.2 = (p.cancel c reason).2.1 from rfl, e2]
      simp [SettleEvent.callId]

/-- Running operations on a table without `cid`, when no operation
re-registers `cid`: no resolver for `cid` is ever invoked, `cid` stays
absent, and every settlement attempt for `cid` returns `false` with no
events. -/
theorem runOps_noentry (ops : List HcOp) :
    ∀ (p : PendingHostcalls) (cid : String),
    (∀ op ∈ ops, op.isRegisterFor cid = false) →
    p.pending.lookup cid = none →
    eventsFor cid (runOps p ops).1 = []
    ∧ (runOps p ops).2.pending.lookup cid = none
    ∧ (∀ j : Nat, ∀ opj, ops[j]? = some opj → opj.isSettleFor cid = true →
        (runOps p ops).1[j]? = some (some false, [])) := by
  induction ops with
  | nil =>
    intro p cid _ hnone
    refine ⟨rfl, hnone, ?_⟩
    intro j opj hj
    simp at hj
  | cons op rest ih =>
    intro p cid hreg hnone
    have hregrest : ∀ o ∈ rest, o.isRegisterFor cid = false :=
      fun o ho => hreg o (List.mem_cons_of_mem _ ho)
    have hstep : ((hcStep p op).1.2.filter (fun ev => ev.callId == cid)) = []
        ∧ (hcStep p op).2.pending.lookup cid = none
        ∧ (op.isSettleFor cid = true → (hcStep p op).1 = (some false, [])) := by
      by_cases hset : op.isSettleFor cid = true
      · obtain ⟨w1, w2⟩ := hcStep_settle_absent p cid op hset hnone
        refine ⟨?_, ?_, fun _ => w1⟩
        · rw [w1]
          rfl
        · rw [w2]
          exact hnone
      · obtain ⟨w1, w2⟩ := hcStep_other p cid op
          (Bool.not_eq_true _ ▸ (by simpa using hset))
          (hreg op (List.mem_cons_self _ _))
        refine ⟨w1, ?_, fun hs => absurd hs hset⟩
        rw [w2]
        exact hnone
    obtain ⟨hs1, hs2, hs3⟩ := hstep
    obtain ⟨r1, r2, r3⟩ := ih (hcStep p op).2 cid hregrest hs2
    refine ⟨?_, r2, ?_⟩
    · show eventsFor cid ((hcStep p op).1 :: (runOps (hcStep p op).2 rest).1) = []
      rw [eventsFor_cons, hs1, r1]
      rfl
    · intro j opj hj hset
      cases j with
      | zero =>
        simp only [List.getElem?_cons_zero, Option.some.injEq] at hj
        subst hj
        have := hs3 hset
        show ((hcStep p op).1 :: (runOps (hcStep p op).2 rest).1)[0]?
          = some (some false, [])
        rw [List.getElem?_cons_zero, this]
      | succ j =>
        simp only [List.getElem?_cons_succ] at hj
        show ((hcStep p op).1 :: (runOps (hcStep p op).2 rest).1)[j + 1]?
          = some (some false, [])
        rw [List.getElem?_cons_succ]
        exact r3 j opj hj hset

/-- `runOps` unfolds over a cons. -/
theorem runOps_cons (p : PendingHostcalls) (op : HcOp) (rest : List HcOp) :
    (runOps p (op :: rest)).1
      = (hcStep p op).1 :: (runOps (hcStep p op).2 rest).1 := rfl

/-- Invariant run lemma: if the remaining registrations for `cid` plus a
possibly present entry amount to at most one settleability source, then
at most one resolver for `cid` fires, and after a settlement attempt
returns `true` every later one returns `false` with no events. -/
theorem runOps_once_aux (ops : List HcOp) :
    ∀ (p : PendingHostcalls) (cid : String),
    (ops.filter (fun o => o.isRegisterFor cid)).length
        + (if p.pending.lookup cid = none then 0 else 1) ≤ 1 →
    (eventsFor cid (runOps p ops).1).length ≤ 1
    ∧ (∀ i : Nat, ∀ opi, ops[i]? = some opi → opi.isSettleFor cid = true →
        ∀ ri, (runOps p ops).1[i]? = some ri → ri.1 = some true →
        ∀ j : Nat, ∀ opj, i < j → ops[j]? = some opj →
          opj.isSettleFor cid = true →
          (runOps p ops).1[j]? = some (some false, [])) := by
  induction ops with
  | nil =>
    intro p cid _
    refine ⟨Nat.zero_le 1, ?_⟩
    intro i opi hi
    simp at hi
  | cons op rest ih =>
    intro p cid hinv
    by_cases hregop : op.isRegisterFor cid = true
    · obtain ⟨tok, rfl⟩ : ∃ tok, op = HcOp.register cid tok := by
        cases op with
        | register c t =>
          have hcc : c = cid := by simpa [HcOp.isRegisterFor] using hregop
          exact ⟨t, by rw [hcc]⟩
        | complete c oc => simp [HcOp.isRegisterFor] at hregop
        | cancel c r => simp [HcOp.isRegisterFor] at hregop
      have hfc : ((HcOp.register cid tok :: rest).filter
          (fun o => o.isRegisterFor cid)).length
          = (rest.filter (fun o => o.isRegisterFor cid)).length + 1 := by
        rw [List.filter_cons, if_pos (by simp [HcOp.isRegisterFor])]
        simp
      rw [hfc] at hinv
      have hlk' : (p.register cid tok).pending.lookup cid = some tok :=
        register_lookup_self p cid tok
      have hinv' : (rest.filter (fun o => o.isRegisterFor cid)).length
          + (if (p.register cid tok).pending.lookup cid = none then 0 else 1)
            ≤ 1 := by
        rw [hlk']
        simp only [reduceCtorEq, if_false]
        omega
      obtain ⟨r1, r2⟩ := ih (p.register cid tok) cid hinv'
      constructor
      · show (eventsFor cid ((hcStep p (HcOp.register cid tok)).1
            :: (runOps (hcStep p (HcOp.register cid tok)).2 rest).1)).length ≤ 1
        rw [eventsFor_cons]
        have hsev : ((hcStep p (HcOp.register cid tok)).1.2.filter
            (fun ev => ev.callId == cid)) = [] := rfl
        rw [hsev]
        simpa using r1
      · intro i opi hi hset ri hri htrue j opj hij hj hsetj
        rw [runOps_cons] at hri ⊢
        cases i with
        | zero =>
          simp only [List.getElem?_cons_zero, Option.some.injEq] at hi
          subst hi
          simp [HcOp.isSettleFor] at hset
        | succ i =>
          cases j with
          | zero => omega
          | succ j =>
            simp only [List.getElem?_cons_succ] at hi hj hri ⊢
            exact r2 i opi hi hset ri hri htrue j opj (by omega) hj hsetj
    · by_cases hsetop : op.isSettleFor cid = true
      · cases hpn : p.pending.lookup cid with
        | none =>
          obtain ⟨w1, w2⟩ := hcStep_settle_absent p cid op hsetop hpn
          have hfc : ((op :: rest).filter (fun o => o.isRegisterFor cid))
              = rest.filter (fun o => o.isRegisterFor cid) := by
            rw [List.filter_cons, if_neg (by simpa using hregop)]
          rw [hfc] at hinv
          have hinv' : (rest.filter (fun o => o.isRegisterFor cid)).length
              + (if (hcStep p op).2.pending.lookup cid = none then 0 else 1)
                ≤ 1 := by
            rw [w2]
            exact hinv
          obtain ⟨r1, r2⟩ := ih (hcStep p op).2 cid hinv'
          have hsev : ((hcStep p op).1.2.filter (fun ev => ev.callId == cid))
              = [] := by
            rw [w1]
            rfl
          constructor
          · show (eventsFor cid ((hcStep p op).1
                :: (runOps (hcStep p op).2 rest).1)).length ≤ 1
            rw [eventsFor_cons, hsev]
            simpa using r1
          · intro i opi hi hset2 ri hri htrue j opj hij hj hsetj
            rw [runOps_cons] at hri ⊢
            cases i with
            | zero =>
              simp only [List.getElem?_cons_zero, Option.some.injEq] at hri
              rw [w1] at hri
              rw [← hri] at htrue
              simp at htrue
            | succ i =>
              cases j with
              | zero => omega
              | succ j =>
                simp only [List.getElem?_cons_succ] at hi hj hri ⊢
                exact r2 i opi hi hset2 ri hri htrue j opj (by omega) hj hsetj
        | some tok0 =>
          obtain ⟨w1, w2, w3, w4⟩ := hcStep_settle_present p cid op tok0 hsetop hpn
          have hfc : ((op :: rest).filter (fun o => o.isRegisterFor cid))
              = rest.filter (fun o => o.isRegisterFor cid) := by
            rw [List.filter_cons, if_neg (by simpa using hregop)]
          rw [hfc] at hinv
          simp only [hpn, reduceCtorEq, if_false] at hinv
          have hrest0 : ∀ o ∈ rest, o.isRegisterFor cid = false := by
            have hlen : (rest.filter (fun o => o.isRegisterFor cid)).length = 0 := by
              omega
            intro o ho
            by_contra hcon
            have hmemf : o ∈ rest.filter (fun o => o.isRegisterFor cid) := by
              rw [List.mem_filter]
              exact ⟨ho, by simpa using hcon⟩
            rw [List.length_eq_zero.mp hlen] at hmemf
            simp at hmemf
          obtain ⟨r1, r2, r3⟩ := runOps_noentry rest (hcStep p op).2 cid hrest0 w4
          constructor
          · show (eventsFor cid ((hcStep p op).1
                :: (runOps (hcStep p op).2 rest).1)).length ≤ 1
            rw [eventsFor_cons, r1]
            simpa using w3
          · intro i opi hi hset2 ri hri htrue j opj hij hj hsetj
            rw [runOps_cons]
            cases j with
            | zero => omega
            | succ j =>
              simp only [List.getElem?_cons_succ] at hj ⊢
              exact r3 j opj hj hsetj
      · have hset' : op.isSettleFor cid = false := by
          simpa using hsetop
        have hreg' : op.isRegisterFor cid = false := by
          simpa using hregop
        obtain ⟨w1, w2⟩ := hcStep_other p cid op hset' hreg'
        have hfc : ((op :: rest).filter (fun o => o.isRegisterFor cid))
            = rest.filter (fun o => o.isRegisterFor cid) := by
          rw [List.filter_cons, if_neg (by simp [hreg'])]
        rw [hfc] at hinv
        have hinv' : (rest.filter (fun o => o.isRegisterFor cid)).length
            + (if (hcStep p op).2.pending.lookup cid = none then 0 else 1)
              ≤ 1 := by
          rw [w2]
          exact hinv
        obtain ⟨r1, r2⟩ := ih (hcStep p op).2 cid hinv'
        constructor
        · show (eventsFor cid ((hcStep p op).1
              :: (runOps (hcStep p op).2 rest).1)).length ≤ 1
          rw [eventsFor_cons, w1]
          simpa using r1
        · intro i opi hi hset2 ri hri htrue j opj hij hj hsetj
          rw [runOps_cons] at hri ⊢
          cases i with
          | zero =>
            simp only [List.getElem?_cons_zero, Option.some.injEq] at hi
            subst hi
            rw [hset'] at hset2
            simp at hset2
          | succ i =>
            cases j with
            | zero => omega
            | succ j =>
              simp only [List.getElem?_cons_succ] at hi hj hri ⊢
              exact r2 i opi hi hset2 ri hri htrue j opj (by omega) hj hsetj

/-- The operation sequence that refutes C9 as literally stated: register,
complete, re-register, then complete the same call id again. -/
def resettleOps : List HcOp :=
  [.register "c" 1, .complete "c" (.success .null),
   .register "c" 2, .complete "c" (.success .null)]

/-- C9 counterexample: over arbitrary operation sequences the claim
fails — after a re-registration the second `complete` for the already
settled call id returns `true` and invokes a resolver again (two
resolver invocations in total), where the claim demands `false` and no
invocation. -/
theorem resettle_refutes_single_settlement :
    ((runOps PendingHostcalls.new resettleOps).1.map Prod.fst)
      = [none, some true, none, some true]
    ∧ (eventsFor "c" (runOps PendingHostcalls.new resettleOps).1).length = 2
    ∧ (some true : Option Bool) ≠ some false := by
  refine ⟨rfl, rfl, by decide⟩

/-- C9 (amended): for every sequence of register / complete / cancel
operations in which each call id is registered at most once, each call id
is settled at most once: at most one resolver invocation happens for it;
once a settlement attempt has returned `true`, every later complete or
cancel for the same call id returns `false` and invokes neither
resolver; and a successful complete or cancel removes the
`(resolve, reject)` entry (a second lookup fails) while invoking exactly
one resolver. -/
theorem pending_settled_at_most_once (ops : List HcOp)
    (huniq : ∀ cid : String,
      (ops.filter (fun o => o.isRegisterFor cid)).length ≤ 1) :
    ∀ cid : String,
      (eventsFor cid (runOps PendingHostcalls.new ops).1).length ≤ 1
      ∧ (∀ i : Nat, ∀ opi, ops[i]? = some opi → opi.isSettleFor cid = true →
          ∀ ri, (runOps PendingHostcalls.new ops).1[i]? = some ri →
          ri.1 = some true →
          ∀ j : Nat, ∀ opj, i < j → ops[j]? = some opj →
            opj.isSettleFor cid = true →
            (runOps PendingHostcalls.new ops).1[j]? = some (some false, []))
      ∧ (∀ (q : PendingHostcalls) (tok : Nat) (oc : HostcallOutcome),
          q.pending.lookup cid = some tok →
          (q.complete cid oc).1 = true
          ∧ (q.complete cid oc).2.1.length = 1
          ∧ (q.complete cid oc).2.2.pending.lookup cid = none)
      ∧ (∀ (q : PendingHostcalls) (tok : Nat) (reason : String),
          q.pending.lookup cid = some tok →
          (q.cancel cid reason).1 = true
          ∧ (q.cancel cid reason).2.1.length = 1
          ∧ (q.cancel cid reason).2.2.pending.lookup cid = none) := by
  intro cid
  have hinv : (ops.filter (fun o => o.isRegisterFor cid)).length
      + (if PendingHostcalls.new.pending.lookup cid = none then 0 else 1) ≤ 1 := by
    rw [show PendingHostcalls.new.pending.lookup cid = none from rfl, if_pos rfl]
    simpa using huniq cid
  obtain ⟨r1, r2⟩ := runOps_once_aux ops PendingHostcalls.new cid hinv
  refine ⟨r1, r2, ?_, ?_⟩
  · intro q tok oc h
    obtain ⟨e1, e2, _, e4, _⟩ := complete_present q cid tok oc h
    exact ⟨e1, e2, e4⟩
  · intro q tok reason h
    obtain ⟨e1, e2, e3, _⟩ := cancel_present q cid tok reason h
    refine ⟨e1, ?_, e3⟩
    rw [e2]
    rfl

/-- A register / complete / cancel history registering `c` only once. -/
def settleOnceOps : List HcOp :=
  [.register "c" 1, .complete "c" (.success .null), .cancel "c" "late"]

/-- C9 witness: in a history that registers `c` once, completes it and
then tries to cancel it, the resolver fires once (for the complete) and
the late cancel returns `false`. -/
theorem pending_settled_at_most_once_witness :
    (∀ cid : String,
      (settleOnceOps.filter (fun o => o.isRegisterFor cid)).length ≤ 1)
    ∧ (eventsFor "c" (runOps PendingHostcalls.new settleOnceOps).1).length ≤ 1
    ∧ ((runOps PendingHostcalls.new settleOnceOps).1.map Prod.fst)
        = [none, some true, some false] := by
  have huniq : ∀ cid : String,
      (settleOnceOps.filter (fun o => o.isRegisterFor cid)).length ≤ 1 := by
    intro cid
    cases h : (("c" : String) == cid) <;>
      simp [settleOnceOps, List.filter_cons, HcOp.isRegisterFor, h]
  exact ⟨huniq,
    (pending_settled_at_most_once settleOnceOps huniq "c").1, rfl⟩

/-- C3 counterexample: cancelling a pending hostcall rejects with the
code string `"CANCELLED"` (uppercase), not `"cancelled"` as the claim
states. -/
theorem cancel_code_is_uppercase :
    ((PendingHostcalls.new.register "call-1" 7).cancel
        "call-1" "user asked").2.1
      = [SettleEvent.rejected "call-1" 7 "CANCELLED" "user asked"]
    ∧ "CANCELLED" ≠ "cancelled" :=
  ⟨rfl, by decide⟩

/-- C3 (amended): cancelling a pending hostcall rejects the paired
promise with an object whose `code` field is the string `"CANCELLED"`
and whose `message` field is the caller-provided reason; the entry is
removed, so a later completion for the same call id finds no resolver
and is discarded (returns `false`, settles nothing, leaves the table
unchanged). -/
theorem cancel_rejects_and_discards_later_completion (p : PendingHostcalls)
    (cid : String) (tok : Nat) (reason : String)
    (h : p.pending.lookup cid = some tok) :
    (p.cancel cid reason).1 = true
    ∧ (p.cancel cid reason).2.1
        = [SettleEvent.rejected cid tok "CANCELLED" reason]
    ∧ (p.cancel cid reason).2.2.pending.lookup cid = none
    ∧ (∀ oc, (p.cancel cid reason).2.2.complete cid oc
        = (false, [], (p.cancel cid reason).2.2)) := by
  obtain ⟨e1, e2, e3, _⟩ := cancel_present p cid tok reason h
  exact ⟨e1, e2, e3, fun oc => complete_absent _ cid oc e3⟩

/-- C3 witness: a registered `call-1` cancelled with a concrete reason. -/
theorem cancel_rejects_and_discards_later_completion_witness :
    (PendingHostcalls.new.register "call-1" 7).pending.lookup "call-1" = some 7
    ∧ (((PendingHostcalls.new.register "call-1" 7).cancel "call-1" "timeout").1 = true
       ∧ ((PendingHostcalls.new.register "call-1" 7).cancel "call-1" "timeout").2.1
           = [SettleEvent.rejected "call-1" 7 "CANCELLED" "timeout"]
       ∧ (((PendingHostcalls.new.register "call-1" 7).cancel
            "call-1" "timeout").2.2.pending.lookup "call-1") = none
       ∧ (∀ oc, (((PendingHostcalls.new.register "call-1" 7).cancel
            "call-1" "timeout").2.2.complete "call-1" oc)
           = (false, [], ((PendingHostcalls.new.register "call-1" 7).cancel
              "call-1" "timeout").2.2))) :=
  ⟨by decide,
   cancel_rejects_and_discards_later_completion
     (PendingHostcalls.new.register "call-1" 7) "call-1" 7 "timeout" (by decide)⟩

/-- C10: every JSON number representable as an `i64` passes through the
truncating `as i32` cast when a success outcome is converted for
JavaScript; completing a registered call with the value `2^31` therefore
resolves the promise with `-2^31`, which is not numerically equal to the
value the host produced. -/
theorem success_value_truncated_to_i32 :
    (∀ n : Int, I64MIN ≤ n → n ≤ I64MAX →
        json_to_js (.num n) = .int (i32Wrap n))
    ∧ (∀ (p : PendingHostcalls) (cid : String) (tok : Nat),
        p.pending.lookup cid = some tok →
        (p.complete cid (.success (.num (2 ^ 31)))).2.1
          = [SettleEvent.resolved cid tok (.int (-(2 ^ 31)))])
    ∧ ((-(2 ^ 31) : Int) ≠ 2 ^ 31) := by
  refine ⟨?_, ?_, by decide⟩
  · intro n h1 h2
    unfold json_to_js asI64
    rw [if_pos ⟨h1, h2⟩]
  · intro p cid tok h
    unfold PendingHostcalls.complete
    rw [h]
    have hconv : json_to_js (.num (2 ^ 31)) = .int (-(2 ^ 31)) := by
      unfold json_to_js asI64
      rw [if_pos (by constructor <;> decide)]
      norm_num [i32Wrap]
    dsimp only
    rw [hconv]

/-- C10 witness: the boundary value `2^31` itself. -/
theorem success_value_truncated_to_i32_witness :
    (I64MIN ≤ (2 : Int) ^ 31 ∧ (2 : Int) ^ 31 ≤ I64MAX
      ∧ (PendingHostcalls.new.register "call-1" 7).pending.lookup "call-1"
          = some 7)
    ∧ json_to_js (.num (2 ^ 31)) = .int (i32Wrap (2 ^ 31))
    ∧ ((PendingHostcalls.new.register "call-1" 7).complete "call-1"
        (.success (.num (2 ^ 31)))).2.1
        = [SettleEvent.resolved "call-1" 7 (.int (-(2 ^ 31)))] :=
  ⟨⟨by decide, by decide, by decide⟩,
   success_value_truncated_to_i32.1 (2 ^ 31) (by decide) (by decide),
   success_value_truncated_to_i32.2.1
     (PendingHostcalls.new.register "call-1" 7) "call-1" 7 (by decide)⟩
